import Mathlib

/-!
Packed RGB image and colour model of go-libjpeg (`rgb.go`).

A shallow embedding of `src/rgb.go`.

* Go `int` is a 64-bit two's complement integer: it is modelled by `Int`
  together with the wrapping operations `add64`, `sub64`, `mul64`.
* `uint8` is `Fin 256`, `uint32` is `Fin 4294967296`.
* A run-time panic (slice bounds out of range, `make` with a negative
  length, a failed type assertion) is the result `none`.
* A byte slice is its backing storage from the first element of the slice up
  to its capacity, together with its length.
* The methods have pointer receivers; the embedding passes the pointed-to
  value and returns the updated one (the receiver is never nil).
-/

namespace GoLibjpeg

/-! ## Machine integers -/

/-- Values of Go's `uint8`. -/
abbrev Byte := Fin 256

/-- Values of Go's `uint32`. -/
abbrev U32 := Fin 4294967296

/-- Conversion `uint8(n)`: keeps the low 8 bits. -/
def toByte (n : Nat) : Byte := ⟨n % 256, Nat.mod_lt n (by decide)⟩

/-- Conversion to `uint32`: keeps the low 32 bits. -/
def toU32 (n : Nat) : U32 := ⟨n % 4294967296, Nat.mod_lt n (by decide)⟩

/-- Two's complement reduction of an integer to the range of Go's 64-bit `int`. -/
def wrap64 (z : Int) : Int := (z + 9223372036854775808) % 18446744073709551616 - 9223372036854775808

/-- Go `a + b` on `int`. -/
def add64 (a b : Int) : Int := wrap64 (a + b)

/-- Go `a - b` on `int`. -/
def sub64 (a b : Int) : Int := wrap64 (a - b)

/-- Go `a * b` on `int`. -/
def mul64 (a b : Int) : Int := wrap64 (a * b)

/-- The value is representable as a Go `int`. -/
def isInt64 (z : Int) : Prop := -9223372036854775808 ≤ z ∧ z < 9223372036854775808

instance (z : Int) : Decidable (isInt64 z) := by unfold isInt64; infer_instance

/-! ## `image.Point` and `image.Rectangle` (Go standard library) -/

/-- Go's `image.Point`. -/
structure Point where
  X : Int
  Y : Int
deriving DecidableEq, Repr

/-- Go's `image.Rectangle`. -/
structure Rectangle where
  Min : Point
  Max : Point
deriving DecidableEq, Repr

/-- All four coordinates are representable as Go `int`s. -/
def Rectangle.isInt64 (r : Rectangle) : Prop :=
  GoLibjpeg.isInt64 r.Min.X ∧ GoLibjpeg.isInt64 r.Min.Y ∧
  GoLibjpeg.isInt64 r.Max.X ∧ GoLibjpeg.isInt64 r.Max.Y

instance (r : Rectangle) : Decidable r.isInt64 := by unfold Rectangle.isInt64; infer_instance

/-- Go's `Rectangle.Dx`: `r.Max.X - r.Min.X`. -/
def Rectangle.Dx (r : Rectangle) : Int := sub64 r.Max.X r.Min.X

/-- Go's `Rectangle.Dy`: `r.Max.Y - r.Min.Y`. -/
def Rectangle.Dy (r : Rectangle) : Int := sub64 r.Max.Y r.Min.Y

/-- Go's `Point.In`:
`r.Min.X <= p.X && p.X < r.Max.X && r.Min.Y <= p.Y && p.Y < r.Max.Y`. -/
def Point.In (p : Point) (r : Rectangle) : Prop :=
  r.Min.X ≤ p.X ∧ p.X < r.Max.X ∧ r.Min.Y ≤ p.Y ∧ p.Y < r.Max.Y

instance (p : Point) (r : Rectangle) : Decidable (p.In r) := by unfold Point.In; infer_instance

/-- Go's `image.Rect(x0, y0, x1, y1)`, which orders the coordinates. -/
def Rect (x0 y0 x1 y1 : Int) : Rectangle :=
  let (x0, x1) := if x0 > x1 then (x1, x0) else (x0, x1)
  let (y0, y1) := if y0 > y1 then (y1, y0) else (y0, y1)
  ⟨⟨x0, y0⟩, ⟨x1, y1⟩⟩

/-! ## Colours -/

/-- The struct `ColorRGB` of `rgb.go`. -/
structure ColorRGB where
  R : Byte
  G : Byte
  B : Byte
deriving DecidableEq, Repr

/-- The four values returned by a `RGBA()` method. -/
structure Channels where
  r : U32
  g : U32
  b : U32
  a : U32
deriving DecidableEq, Repr

/-- The method `ColorRGB.RGBA` of `rgb.go`. -/
def ColorRGB.RGBA (c : ColorRGB) : Channels :=
  let r : U32 := toU32 c.R.val
  let r : U32 := toU32 (r.val ||| (toU32 (r.val <<< 8)).val)
  let g : U32 := toU32 c.G.val
  let g : U32 := toU32 (g.val ||| (toU32 (g.val <<< 8)).val)
  let b : U32 := toU32 c.B.val
  let b : U32 := toU32 (b.val ||| (toU32 (b.val <<< 8)).val)
  let a : U32 := toU32 0xFFFF
  ⟨r, g, b, a⟩

/-- A value of the interface `color.Color`: either a `ColorRGB`, or a value of
another dynamic type, which the code only observes through its `RGBA()`
method. -/
inductive Color where
  | rgb (c : ColorRGB)
  | other (ch : Channels)
deriving DecidableEq, Repr

/-- The interface method `RGBA()` of a `color.Color`. -/
def Color.RGBA : Color → Channels
  | .rgb c => c.RGBA
  | .other ch => ch

/-- The function `rgbModel` of `rgb.go`. -/
def rgbModel (c : Color) : Color :=
  match c with
  | .rgb _ => c
  | .other _ =>
    let ch := c.RGBA
    .rgb ⟨toByte (ch.r.val >>> 8), toByte (ch.g.val >>> 8), toByte (ch.b.val >>> 8)⟩

/-- The model `RGBModel = color.ModelFunc(rgbModel)`: its `Convert` calls `rgbModel`. -/
def RGBModel.Convert (c : Color) : Color := rgbModel c

/-- The type assertion `c.(ColorRGB)`; it panics on another dynamic type. -/
def Color.assertRGB : Color → Option ColorRGB
  | .rgb c => some c
  | .other _ => none

/-- Go's `color.RGBA{R, G, B, A}.RGBA()` (standard library): each 8-bit field
is replicated into both bytes of the 16-bit channel. -/
def stdRGBA (R G B A : Byte) : Channels :=
  let r : U32 := toU32 R.val
  let r : U32 := toU32 (r.val ||| (toU32 (r.val <<< 8)).val)
  let g : U32 := toU32 G.val
  let g : U32 := toU32 (g.val ||| (toU32 (g.val <<< 8)).val)
  let b : U32 := toU32 B.val
  let b : U32 := toU32 (b.val ||| (toU32 (b.val <<< 8)).val)
  let a : U32 := toU32 A.val
  let a : U32 := toU32 (a.val ||| (toU32 (a.val <<< 8)).val)
  ⟨r, g, b, a⟩

/-! ## The image type `RGB` -/

/-- A Go `[]uint8`: `arr` is the backing storage from the first element of the
slice to its capacity, `len` the length of the slice. -/
structure Slice where
  arr : List Byte
  len : Nat
deriving DecidableEq, Repr

/-- Go's `cap(s)`. -/
def Slice.cap (s : Slice) : Nat := s.arr.length

/-- Go's `make([]uint8, n)`: panics on a negative length, otherwise a zeroed
slice of length and capacity `n`. -/
def makeBytes (n : Int) : Option Slice :=
  if n < 0 then none else some ⟨List.replicate n.toNat 0, n.toNat⟩

/-- The bounds check of the full slice expression `s[i : i+3 : i+3]`, which
requires `0 <= i <= i+3 <= cap(s)`; the result is the index of the first
element of the three-element slice. -/
def Slice.slice3 (s : Slice) (i : Int) : Option Nat :=
  if 0 ≤ i ∧ i ≤ add64 i 3 ∧ add64 i 3 ≤ (s.cap : Int) then some i.toNat else none

/-- The struct `RGB` of `rgb.go`. -/
structure RGB where
  Pix : Slice
  Stride : Int
  Rect : Rectangle
deriving DecidableEq, Repr

/-- The method `RGB.PixOffset` of `rgb.go`. -/
def RGB.PixOffset (r : RGB) (x y : Int) : Int :=
  add64 (mul64 (sub64 y r.Rect.Min.Y) r.Stride) (mul64 (sub64 x r.Rect.Min.X) 3)

/-- The three loads `ColorRGB{s[0], s[1], s[2]}` through the slice starting at
index `n` of the backing storage. -/
def Slice.load3 (s : Slice) (n : Nat) : Option ColorRGB :=
  match s.arr[n]?, s.arr[n + 1]?, s.arr[n + 2]? with
  | some s0, some s1, some s2 => some ⟨s0, s1, s2⟩
  | _, _, _ => none

/-- The method `RGB.RGBAt` of `rgb.go`. -/
def RGB.RGBAt (r : RGB) (x y : Int) : Option ColorRGB :=
  if ¬ (Point.mk x y).In r.Rect then some ⟨0, 0, 0⟩
  else
    let i := r.PixOffset x y
    match r.Pix.slice3 i with
    | none => none
    | some n => r.Pix.load3 n

/-- The method `RGB.At` of `rgb.go`. -/
def RGB.At (r : RGB) (x y : Int) : Option Color :=
  (r.RGBAt x y).map Color.rgb

/-- The three stores `s[0] = c.R; s[1] = c.G; s[2] = c.B` through the slice
starting at index `n` of the backing storage. -/
def Slice.store3 (s : Slice) (n : Nat) (c : ColorRGB) : Slice :=
  { s with arr := ((s.arr.set n c.R).set (n + 1) c.G).set (n + 2) c.B }

/-- The method `RGB.SetRGB` of `rgb.go`. -/
def RGB.SetRGB (p : RGB) (x y : Int) (c : ColorRGB) : Option RGB :=
  if ¬ (Point.mk x y).In p.Rect then some p
  else
    let i := p.PixOffset x y
    match p.Pix.slice3 i with
    | none => none
    | some n => some { p with Pix := p.Pix.store3 n c }

/-- The method `RGB.Set` of `rgb.go`. -/
def RGB.Set (p : RGB) (x y : Int) (c : Color) : Option RGB :=
  if ¬ (Point.mk x y).In p.Rect then some p
  else
    let i := p.PixOffset x y
    match (RGBModel.Convert c).assertRGB with
    | none => none
    | some c1 =>
      match p.Pix.slice3 i with
      | none => none
      | some n => some { p with Pix := p.Pix.store3 n c1 }

/-- The function `NewRGB` of `rgb.go`. -/
def NewRGB (r : Rectangle) : Option RGB :=
  let w := r.Dx
  let h := r.Dy
  match makeBytes (mul64 (mul64 3 w) h) with
  | none => none
  | some pix => some { Pix := pix, Stride := mul64 3 w, Rect := r }

/-- One call of a setter on an image. -/
inductive SetterCall where
  | set (x y : Int) (c : Color)
  | setRGB (x y : Int) (c : ColorRGB)

/-- Running one setter call. -/
def SetterCall.run (p : RGB) : SetterCall → Option RGB
  | .set x y c => p.Set x y c
  | .setRGB x y c => p.SetRGB x y c

/-- Running a sequence of setter calls, in order, stopping at a panic. -/
def runCalls (p : RGB) : List SetterCall → Option RGB
  | [] => some p
  | k :: ks => (k.run p).bind fun q => runCalls q ks

/-- The images reached from `NewRGB(r)` by a sequence of `Set`/`SetRGB` calls. -/
def ReachedFrom (r : Rectangle) (p : RGB) : Prop :=
  ∃ p0 ks, NewRGB r = some p0 ∧ runCalls p0 ks = some p

/-- Two images have the same shape: bounds, stride, capacity and length of `Pix`. -/
def SameShape (p q : RGB) : Prop :=
  q.Rect = p.Rect ∧ q.Stride = p.Stride ∧ q.Pix.arr.length = p.Pix.arr.length ∧
  q.Pix.len = p.Pix.len

/-- The shape of every image reached from `NewRGB(r)`. -/
structure Built (r : Rectangle) (p : RGB) : Prop where
  rect : p.Rect = r
  stride : p.Stride = mul64 3 r.Dx
  cap : p.Pix.arr.length = (3 * r.Dx * r.Dy).toNat
  len : p.Pix.len = (3 * r.Dx * r.Dy).toNat

/-! ## The tolerance comparison of the tests -/

/-- Go `-a` on `int`. -/
def neg64 (a : Int) : Int := wrap64 (-a)

/-- The function `delta2` of `jpeg_test.go`. -/
def delta2 (u0 u1 : U32) : Int :=
  let d := sub64 (u0.val : Int) (u1.val : Int)
  if d < 0 then neg64 d else d

/-- The function `withinTolerance` of `testdata_test.go`. -/
def withinTolerance (c0 c1 : Color) (tolerance : Int) : Bool :=
  let ch0 := c0.RGBA
  let ch1 := c1.RGBA
  let r := delta2 ch0.r ch1.r
  let g := delta2 ch0.g ch1.g
  let b := delta2 ch0.b ch1.b
  let a := delta2 ch0.a ch1.a
  decide (r ≤ tolerance) && decide (g ≤ tolerance) && decide (b ≤ tolerance) &&
    decide (a ≤ tolerance)

/-! ## Non-premultiplied colours (Go standard library) -/

/-- One colour channel of Go's `color.NRGBA.RGBA()`:
`r = uint32(c.R); r |= r << 8; r *= uint32(c.A); r /= 0xff`. -/
def nrgbaChannel (x A : Byte) : U32 :=
  let r : U32 := toU32 x.val
  let r : U32 := toU32 (r.val ||| (toU32 (r.val <<< 8)).val)
  let r : U32 := toU32 (r.val * (toU32 A.val).val)
  toU32 (r.val / 0xff)

/-- Go's `color.NRGBA{R, G, B, A}.RGBA()` (standard library): the colour
channels are premultiplied by the alpha, the alpha is replicated into both
bytes. -/
def stdNRGBA (R G B A : Byte) : Channels :=
  let a : U32 := toU32 A.val
  let a : U32 := toU32 (a.val ||| (toU32 (a.val <<< 8)).val)
  ⟨nrgbaChannel R A, nrgbaChannel G A, nrgbaChannel B A, a⟩

/-! ## The manager registries -/

/-- Modelled from the spec: the outcome of one callback of the external codec
into a manager (a refill of the source buffer or a flush of the destination
buffer): bytes transferred, end of stream, a failure of the stream, or a fatal
error raised by the codec. -/
inductive StreamEvent where
  | transferred (n : Nat)
  | endOfStream
  | ioFailure
  | fatalError
deriving DecidableEq, Repr

/-- Modelled from the spec: the two kinds of calls that own a manager. -/
inductive CallKind where
  | decode
  | encode
deriving DecidableEq, Repr

/-- Modelled from the spec: the process-wide registries are not among the
sources (only `SourceManagerMapLen` and `DestinationManagerMapLen` are called,
by `TestMain`). An entry is kept under a monotonically issued handle. -/
structure Registries where
  nextId : Nat
  sources : List Nat
  destinations : List Nat
deriving DecidableEq, Repr

/-- Modelled from the spec: the registries at process start, both empty. -/
def Registries.empty : Registries := ⟨0, [], []⟩

/-- Modelled from the spec: `SourceManagerMapLen()`. -/
def Registries.SourceManagerMapLen (g : Registries) : Nat := g.sources.length

/-- Modelled from the spec: `DestinationManagerMapLen()`. -/
def Registries.DestinationManagerMapLen (g : Registries) : Nat := g.destinations.length

/-- Modelled from the spec: the state `registered`, a fresh handle is issued and
stored in the registry of the call's kind. -/
def Registries.register (g : Registries) (k : CallKind) : Nat × Registries :=
  match k with
  | .decode => (g.nextId, { g with nextId := g.nextId + 1, sources := g.nextId :: g.sources })
  | .encode =>
    (g.nextId, { g with nextId := g.nextId + 1, destinations := g.nextId :: g.destinations })

/-- Modelled from the spec: the state `torn down`, the entry of the handle is
removed from the registry of the call's kind. -/
def Registries.teardown (g : Registries) (k : CallKind) (id : Nat) : Registries :=
  match k with
  | .decode => { g with sources := g.sources.filter fun i => i ≠ id }
  | .encode => { g with destinations := g.destinations.filter fun i => i ≠ id }

/-- Modelled from the spec: the state `streaming`. The callbacks are served in
order; a failure of the stream or a fatal error of the codec ends the call with
an error; the end of the stream is not a failure of the manager. The result is
whether the call succeeds. -/
def streamAll : List StreamEvent → Bool
  | [] => true
  | .ioFailure :: _ => false
  | .fatalError :: _ => false
  | _ :: es => streamAll es

/-- Modelled from the spec: a decode or encode call as the registries see it: its kind, whether it is
rejected before a manager is set up (a caller-contract or capability error),
and the callbacks of the codec during the call. -/
structure Call where
  kind : CallKind
  rejected : Bool
  events : List StreamEvent
deriving DecidableEq, Repr

/-- Modelled from the spec: one call, `unregistered → registered → (streaming)*
→ torn down`, with the teardown on every exit path. The result is the state of
the registries when the call returns and whether the call succeeded. -/
def runCall (g : Registries) (c : Call) : Registries × Bool :=
  if c.rejected then (g, false)
  else
    let (id, g1) := g.register c.kind
    let ok := streamAll c.events
    (g1.teardown c.kind id, ok)

/-- Modelled from the spec: a sequence of calls, one after the other (calls are
synchronous; calls in flight on several threads are not modelled). -/
def runAll (g : Registries) : List Call → Registries
  | [] => g
  | c :: cs => runAll (runCall g c).1 cs

/-- Modelled from the spec: every registered handle has been issued. -/
def Registries.WF (g : Registries) : Prop :=
  (∀ i ∈ g.sources, i < g.nextId) ∧ (∀ i ∈ g.destinations, i < g.nextId)

/-! ## Sample values -/

/-- The rectangle `image.Rect(0, 0, 2, 2)`. -/
def sampleRect : Rectangle := Rect 0 0 2 2

/-- The image `NewRGB(image.Rect(0, 0, 2, 2))` after `SetRGB(1, 0, ColorRGB{7, 8, 9})`. -/
def sampleImage : RGB := ⟨⟨[0, 0, 0, 7, 8, 9, 0, 0, 0, 0, 0, 0], 12⟩, 6, sampleRect⟩

/-- A colour of another dynamic type, with a partial alpha. -/
def sampleColor : Color := .other ⟨0x1234, 0x5678, 0x9abc, 0x8000⟩

/-- An image over `image.Rect(0, 0, 1, 1)` whose `Pix` is empty. -/
def emptyPixImage : RGB := ⟨⟨[], 0⟩, 3, Rect 0 0 1 1⟩

/-- The malformed rectangle `image.Rectangle{Min: (1, 1), Max: (0, 0)}`. -/
def invertedRect : Rectangle := ⟨⟨1, 1⟩, ⟨0, 0⟩⟩

/-- The rectangle spanning the whole range of `int` on both axes,
`image.Rect(math.MinInt64, math.MinInt64, math.MaxInt64, math.MaxInt64)`. -/
def fullRangeRect : Rectangle :=
  Rect (-9223372036854775808) (-9223372036854775808) 9223372036854775807 9223372036854775807

/-- The rectangle `image.Rect(0, 0, 1<<32, 1<<32)`. -/
def squareRect32 : Rectangle := Rect 0 0 4294967296 4294967296

/-- The degenerate rectangle `image.Rect(3, 4, 3, 9)` of zero width. -/
def zeroWidthRect : Rectangle := Rect 3 4 3 9

/-! ## Colour conversion -/

set_option maxRecDepth 100000 in
/-- Replicating a byte into both bytes of a 16-bit channel multiplies it by `0x101`. -/
theorem rep16_val (x : Byte) :
    (toU32 ((toU32 x.val).val ||| (toU32 ((toU32 x.val).val <<< 8)).val)).val = x.val * 257 := by
  revert x
  decide

set_option maxRecDepth 100000 in
/-- Dropping the low byte of a replicated byte gives the byte back. -/
theorem toByte_rep16 (x : Byte) : toByte ((x.val * 257) >>> 8) = x := by
  revert x
  decide

theorem ColorRGB.RGBA_r (c : ColorRGB) : c.RGBA.r.val = c.R.val * 257 := rep16_val c.R

theorem ColorRGB.RGBA_g (c : ColorRGB) : c.RGBA.g.val = c.G.val * 257 := rep16_val c.G

theorem ColorRGB.RGBA_b (c : ColorRGB) : c.RGBA.b.val = c.B.val * 257 := rep16_val c.B

theorem ColorRGB.RGBA_a (c : ColorRGB) : c.RGBA.a.val = 65535 := rfl

/-- The conversion formula, for every dynamic type of the argument. -/
theorem rgbModel_formula (c : Color) :
    rgbModel c = .rgb ⟨toByte (c.RGBA.r.val >>> 8), toByte (c.RGBA.g.val >>> 8),
      toByte (c.RGBA.b.val >>> 8)⟩ := by
  cases c with
  | rgb k =>
    simp only [rgbModel, Color.RGBA, ColorRGB.RGBA_r, ColorRGB.RGBA_g, ColorRGB.RGBA_b,
      toByte_rep16]
  | other ch => rfl

/-! ## Machine arithmetic -/

theorem wrap64_of_isInt64 {z : Int} (h : isInt64 z) : wrap64 z = z := by
  unfold wrap64
  unfold isInt64 at h
  omega

theorem wrap64_isInt64 (z : Int) : isInt64 (wrap64 z) := by
  unfold wrap64 isInt64
  omega

/-- Inside a representable rectangle of positive (machine) width, the width is
the exact difference of the bounds and the column offset lies below it. -/
theorem sub64_in_range {lo hi x : Int} (hlo : isInt64 lo) (hhi : isInt64 hi)
    (hd : 0 < sub64 hi lo) (h1 : lo ≤ x) (h2 : x < hi) :
    sub64 hi lo = hi - lo ∧ sub64 x lo = x - lo := by
  unfold sub64 wrap64 at *
  unfold isInt64 at *
  omega

/-- The row-major offset computation does not wrap when the byte size of the
image is representable. -/
theorem offset_arith (w h a b : Int) (hb0 : 0 ≤ b) (hb : b < w) (ha0 : 0 ≤ a) (ha : a < h)
    (hwh : 3 * w * h < 9223372036854775808) :
    mul64 3 w = 3 * w ∧ mul64 (mul64 3 w) h = 3 * w * h ∧
    add64 (mul64 a (mul64 3 w)) (mul64 b 3) = a * (3 * w) + b * 3 ∧
    add64 (a * (3 * w) + b * 3) 3 = a * (3 * w) + b * 3 + 3 ∧
    0 ≤ a * (3 * w) + b * 3 ∧ a * (3 * w) + b * 3 + 3 ≤ 3 * w * h := by
  have hw : 0 < w := by omega
  have h1 : (a + 1) * w ≤ h * w := Int.mul_le_mul_of_nonneg_right (by omega) (by omega)
  have h2 : 0 ≤ a * w := Int.mul_nonneg ha0 (by omega)
  have e1 : (a + 1) * w = a * w + w := by ring
  have e2 : 3 * w * h = 3 * (h * w) := by ring
  have e3 : a * (3 * w) = 3 * (a * w) := by ring
  rw [e1] at h1
  rw [e2] at hwh ⊢
  have m1 : mul64 3 w = 3 * w := wrap64_of_isInt64 (by unfold isInt64; omega)
  rw [m1, e3]
  have m2 : mul64 (3 * w) h = 3 * (h * w) := by
    unfold mul64
    rw [show 3 * w * h = 3 * (h * w) by ring]
    exact wrap64_of_isInt64 (by unfold isInt64; omega)
  have m3 : mul64 a (3 * w) = 3 * (a * w) := by
    unfold mul64
    rw [e3]
    exact wrap64_of_isInt64 (by unfold isInt64; omega)
  have m4 : mul64 b 3 = b * 3 := wrap64_of_isInt64 (by unfold isInt64; omega)
  rw [m2, m4]
  have e4 : a * (3 * w) = 3 * (a * w) := e3
  refine ⟨rfl, rfl, ?_, ?_, by omega, by omega⟩
  · rw [show mul64 a (3 * w) = 3 * (a * w) from m3]
    exact wrap64_of_isInt64 (by unfold isInt64; omega)
  · exact wrap64_of_isInt64 (by unfold isInt64; omega)

/-! ## Storage lemmas -/

theorem store3_length (s : Slice) (n : Nat) (c : ColorRGB) :
    (s.store3 n c).arr.length = s.arr.length := by
  simp [Slice.store3]

theorem store3_len (s : Slice) (n : Nat) (c : ColorRGB) : (s.store3 n c).len = s.len := rfl

/-- The three bytes written by `store3` are read back, in R, G, B order. -/
theorem store3_read (s : Slice) (n : Nat) (c : ColorRGB) (h : n + 3 ≤ s.arr.length) :
    (s.store3 n c).arr[n]? = some c.R ∧ (s.store3 n c).arr[n + 1]? = some c.G ∧
    (s.store3 n c).arr[n + 2]? = some c.B := by
  refine ⟨?_, ?_, ?_⟩
  · simp [Slice.store3, List.getElem?_set]
    omega
  · simp [Slice.store3, List.getElem?_set]
    omega
  · simp [Slice.store3, List.getElem?_set]
    omega

/-- Bytes outside the three written ones are untouched by `store3`. -/
theorem store3_frame (s : Slice) (n j : Nat) (c : ColorRGB) (h : j < n ∨ n + 3 ≤ j) :
    (s.store3 n c).arr[j]? = s.arr[j]? := by
  have h0 : n ≠ j := by omega
  have h1 : n + 1 ≠ j := by omega
  have h2 : n + 2 ≠ j := by omega
  simp [Slice.store3, List.getElem?_set, h0, h1, h2]

/-- A colour stored by `store3` is loaded back by `load3` at the same index. -/
theorem load3_store3 (s : Slice) (n : Nat) (c : ColorRGB) (h : n + 3 ≤ s.arr.length) :
    (s.store3 n c).load3 n = some c := by
  obtain ⟨h0, h1, h2⟩ := store3_read s n c h
  unfold Slice.load3
  rw [h0, h1, h2]

/-- A load from three bytes disjoint from the stored ones is unchanged. -/
theorem load3_frame (s : Slice) (n j : Nat) (c : ColorRGB) (h : j + 3 ≤ n ∨ n + 3 ≤ j) :
    (s.store3 n c).load3 j = s.load3 j := by
  unfold Slice.load3
  rw [store3_frame s n j c (by omega), store3_frame s n (j + 1) c (by omega),
    store3_frame s n (j + 2) c (by omega)]

/-- A load inside the storage succeeds. -/
theorem load3_some (s : Slice) (n : Nat) (h : n + 3 ≤ s.arr.length) :
    ∃ v, s.load3 n = some v := by
  unfold Slice.load3
  rw [List.getElem?_eq_getElem (show n < s.arr.length by omega),
    List.getElem?_eq_getElem (show n + 1 < s.arr.length by omega),
    List.getElem?_eq_getElem (show n + 2 < s.arr.length by omega)]
  exact ⟨_, rfl⟩

/-- A load from zeroed storage is the zero colour. -/
theorem load3_replicate (m len n : Nat) (h : n + 3 ≤ m) :
    (Slice.mk (List.replicate m 0) len).load3 n = some ⟨0, 0, 0⟩ := by
  unfold Slice.load3
  simp only [List.getElem?_replicate]
  rw [if_pos (by omega), if_pos (by omega), if_pos (by omega)]

/-- The offset returned by `PixOffset` is a machine integer, so an accepted
slice expression lies inside the storage. -/
theorem slice3_some {p : RGB} {x y : Int} {n : Nat}
    (h : p.Pix.slice3 (p.PixOffset x y) = some n) :
    (n : Int) = p.PixOffset x y ∧ n + 3 ≤ p.Pix.arr.length := by
  have hi : isInt64 (p.PixOffset x y) := wrap64_isInt64 _
  unfold Slice.slice3 Slice.cap at h
  split at h
  · next hc =>
    cases h
    obtain ⟨c0, c1, c2⟩ := hc
    unfold add64 wrap64 at c1 c2
    unfold isInt64 at hi
    omega
  · cases h

/-! ## Shape of an image -/

theorem SameShape.refl (p : RGB) : SameShape p p := ⟨rfl, rfl, rfl, rfl⟩

theorem SameShape.trans {p q s : RGB} (h1 : SameShape p q) (h2 : SameShape q s) :
    SameShape p s := by
  obtain ⟨a1, a2, a3, a4⟩ := h1
  obtain ⟨b1, b2, b3, b4⟩ := h2
  exact ⟨b1.trans a1, b2.trans a2, b3.trans a3, b4.trans a4⟩

theorem SetRGB_sameShape {p q : RGB} {x y : Int} {c : ColorRGB} (h : p.SetRGB x y c = some q) :
    SameShape p q := by
  unfold RGB.SetRGB at h
  split at h
  · cases h
    exact SameShape.refl p
  · dsimp only at h
    split at h
    · cases h
    · cases h
      exact ⟨rfl, rfl, store3_length _ _ _, rfl⟩

/-- The pixel conversion in `Set` never fails its type assertion. -/
theorem convert_assertRGB (c : Color) : ∃ c1, (RGBModel.Convert c).assertRGB = some c1 ∧
    RGBModel.Convert c = .rgb c1 := by
  cases c with
  | rgb k => exact ⟨k, rfl, rfl⟩
  | other ch => exact ⟨_, rfl, rfl⟩

/-- The generic setter is the fast setter applied to the converted colour. -/
theorem Set_eq_SetRGB (p : RGB) (x y : Int) (c : Color) {c1 : ColorRGB}
    (h : (RGBModel.Convert c).assertRGB = some c1) : p.Set x y c = p.SetRGB x y c1 := by
  unfold RGB.Set RGB.SetRGB
  rw [h]

theorem run_sameShape {p q : RGB} {k : SetterCall} (h : k.run p = some q) : SameShape p q := by
  cases k with
  | set x y c =>
    obtain ⟨c1, hc, _⟩ := convert_assertRGB c
    simp only [SetterCall.run] at h
    rw [Set_eq_SetRGB p x y c hc] at h
    exact SetRGB_sameShape h
  | setRGB x y c => exact SetRGB_sameShape h

theorem runCalls_sameShape {ks : List SetterCall} : ∀ {p q : RGB},
    runCalls p ks = some q → SameShape p q := by
  induction ks with
  | nil =>
    intro p q h
    simp only [runCalls] at h
    cases h
    exact SameShape.refl p
  | cons k ks ih =>
    intro p q h
    simp only [runCalls] at h
    cases hk : k.run p with
    | none => rw [hk] at h; cases h
    | some m =>
      rw [hk] at h
      exact (run_sameShape hk).trans (ih h)

/-! ## Images built by `NewRGB` -/

/-- The size computation `3*w*h` of `NewRGB` for non-negative dimensions whose
byte size is representable. -/
theorem size_arith (w h : Int) (hw : 0 ≤ w) (hh : 0 ≤ h)
    (hwh : 3 * w * h < 9223372036854775808) :
    mul64 (mul64 3 w) h = 3 * w * h ∧ mul64 3 w * h = 3 * w * h ∧
    (3 * w < 9223372036854775808 → mul64 3 w = 3 * w) ∧ (0 < h → mul64 3 w = 3 * w) := by
  have hsmall : 3 * w < 9223372036854775808 → mul64 3 w = 3 * w := fun hs =>
    wrap64_of_isInt64 (by unfold isInt64; omega)
  have hprod : 0 ≤ 3 * w * h := Int.mul_nonneg (by omega) hh
  by_cases h0 : h = 0
  · subst h0
    refine ⟨?_, by simp, hsmall, fun hp => absurd hp (by omega)⟩
    simp [mul64, wrap64]
  · have h1 : 1 ≤ h := by omega
    have h2 : 3 * w * 1 ≤ 3 * w * h := Int.mul_le_mul_of_nonneg_left h1 (by omega)
    have m1 : mul64 3 w = 3 * w := hsmall (by omega)
    refine ⟨?_, by rw [m1], hsmall, fun _ => m1⟩
    rw [m1]
    exact wrap64_of_isInt64 (by unfold isInt64; omega)

/-- The image `NewRGB` returns for non-negative dimensions whose byte size is
representable. -/
theorem NewRGB_eq (r : Rectangle) (hw : 0 ≤ r.Dx) (hh : 0 ≤ r.Dy)
    (hwh : 3 * r.Dx * r.Dy < 9223372036854775808) :
    NewRGB r = some ⟨⟨List.replicate (3 * r.Dx * r.Dy).toNat 0, (3 * r.Dx * r.Dy).toNat⟩,
      mul64 3 r.Dx, r⟩ := by
  have hprod : 0 ≤ 3 * r.Dx * r.Dy := Int.mul_nonneg (by omega) hh
  unfold NewRGB makeBytes
  simp only [(size_arith r.Dx r.Dy hw hh hwh).1]
  rw [if_neg (by omega)]

theorem built_of_reached {r : Rectangle} {p : RGB} (hw : 0 ≤ r.Dx) (hh : 0 ≤ r.Dy)
    (hwh : 3 * r.Dx * r.Dy < 9223372036854775808) (hp : ReachedFrom r p) : Built r p := by
  obtain ⟨p0, ks, h0, hk⟩ := hp
  rw [NewRGB_eq r hw hh hwh] at h0
  cases h0
  obtain ⟨a1, a2, a3, a4⟩ := runCalls_sameShape hk
  exact ⟨a1, a2, by rw [a3]; simp, a4⟩

/-- The slice expression of an in-bounds pixel of a built image is in range, and
starts at the row-major index of the pixel. -/
theorem pixel_slot {r : Rectangle} {p : RGB} {x y : Int} (hb : Built r p) (hr : r.isInt64)
    (hw : 0 < r.Dx) (hh : 0 < r.Dy) (hwh : 3 * r.Dx * r.Dy < 9223372036854775808)
    (hin : (Point.mk x y).In r) :
    ∃ n : Nat, p.Pix.slice3 (p.PixOffset x y) = some n ∧
      (n : Int) = (y - p.Rect.Min.Y) * p.Stride + (x - p.Rect.Min.X) * 3 ∧
      (n : Int) = 3 * ((y - r.Min.Y) * r.Dx + (x - r.Min.X)) ∧
      0 ≤ x - r.Min.X ∧ x - r.Min.X < r.Dx ∧ 0 ≤ y - r.Min.Y ∧ y - r.Min.Y < r.Dy ∧
      n + 3 ≤ p.Pix.arr.length := by
  obtain ⟨hrect, hstride, hcap, -⟩ := hb
  obtain ⟨x0, x1, y0, y1⟩ := hin
  obtain ⟨r1, r2, r3, r4⟩ := hr
  dsimp only at x0 x1 y0 y1
  obtain ⟨dx, sx⟩ := sub64_in_range r1 r3 hw x0 x1
  obtain ⟨dy, sy⟩ := sub64_in_range r2 r4 hh y0 y1
  have hxw : x - r.Min.X < r.Dx := by unfold Rectangle.Dx; omega
  have hyh : y - r.Min.Y < r.Dy := by unfold Rectangle.Dy; omega
  obtain ⟨m1, -, m3, m4, m5, m6⟩ :=
    offset_arith r.Dx r.Dy (y - r.Min.Y) (x - r.Min.X) (by omega) hxw (by omega) hyh hwh
  have hoff : p.PixOffset x y = (y - r.Min.Y) * (3 * r.Dx) + (x - r.Min.X) * 3 := by
    unfold RGB.PixOffset
    rw [hrect, hstride, sx, sy, m3]
  have hcap2 : ((p.Pix.arr.length : Nat) : Int) = 3 * r.Dx * r.Dy := by
    rw [hcap]
    exact Int.toNat_of_nonneg (by omega)
  refine ⟨((y - r.Min.Y) * (3 * r.Dx) + (x - r.Min.X) * 3).toNat, ?_, ?_, ?_,
    by omega, hxw, by omega, hyh, ?_⟩
  · unfold Slice.slice3 Slice.cap
    rw [hoff, m4, hcap2, if_pos ⟨m5, by omega, m6⟩]
  · rw [Int.toNat_of_nonneg m5, hrect, hstride, m1]
  · rw [Int.toNat_of_nonneg m5]
    ring
  · have : (((y - r.Min.Y) * (3 * r.Dx) + (x - r.Min.X) * 3).toNat : Int) + 3 ≤
        ((p.Pix.arr.length : Nat) : Int) := by
      rw [Int.toNat_of_nonneg m5, hcap2]
      exact m6
    omega

/-- An in-bounds write followed by a read at the same coordinate, on a built image. -/
theorem SetRGB_built {r : Rectangle} {p : RGB} {x y : Int} (c : ColorRGB) (hb : Built r p)
    (hr : r.isInt64) (hw : 0 < r.Dx) (hh : 0 < r.Dy)
    (hwh : 3 * r.Dx * r.Dy < 9223372036854775808) (hin : (Point.mk x y).In r) :
    ∃ n : Nat, p.Pix.slice3 (p.PixOffset x y) = some n ∧
      (n : Int) = (y - p.Rect.Min.Y) * p.Stride + (x - p.Rect.Min.X) * 3 ∧
      n + 3 ≤ p.Pix.arr.length ∧
      p.SetRGB x y c = some { p with Pix := p.Pix.store3 n c } ∧
      ({ p with Pix := p.Pix.store3 n c } : RGB).RGBAt x y = some c := by
  obtain ⟨n, hs, hn, -, -, -, -, -, hlen⟩ := pixel_slot hb hr hw hh hwh hin
  have hin2 : (Point.mk x y).In p.Rect := by rw [hb.rect]; exact hin
  refine ⟨n, hs, hn, hlen, ?_, ?_⟩
  · unfold RGB.SetRGB
    rw [if_neg (not_not.mpr hin2)]
    simp only [hs]
  · have hs2 : (p.Pix.store3 n c).slice3 (p.PixOffset x y) = some n := by
      unfold Slice.slice3 Slice.cap at hs ⊢
      rw [store3_length]
      exact hs
    unfold RGB.RGBAt
    rw [if_neg (not_not.mpr hin2)]
    have hoff : ({ p with Pix := p.Pix.store3 n c } : RGB).PixOffset x y = p.PixOffset x y := rfl
    simp only [hoff, hs2]
    exact load3_store3 p.Pix n c hlen

/-- An in-bounds write through an accepted slice expression, on any image,
followed by a read at the same coordinate. -/
theorem SetRGB_slot {p : RGB} {x y : Int} {n : Nat} (c : ColorRGB)
    (hin : (Point.mk x y).In p.Rect) (hs : p.Pix.slice3 (p.PixOffset x y) = some n) :
    p.SetRGB x y c = some { p with Pix := p.Pix.store3 n c } ∧
    ({ p with Pix := p.Pix.store3 n c } : RGB).RGBAt x y = some c := by
  obtain ⟨-, hlen⟩ := slice3_some hs
  constructor
  · unfold RGB.SetRGB
    rw [if_neg (not_not.mpr hin)]
    simp only [hs]
  · have hs2 : (p.Pix.store3 n c).slice3 (p.PixOffset x y) = some n := by
      unfold Slice.slice3 Slice.cap at hs ⊢
      rw [store3_length]
      exact hs
    unfold RGB.RGBAt
    rw [if_neg (not_not.mpr hin)]
    have hoff : ({ p with Pix := p.Pix.store3 n c } : RGB).PixOffset x y = p.PixOffset x y := rfl
    simp only [hoff, hs2]
    exact load3_store3 p.Pix n c hlen

/-- Distinct cells of a grid of width `w` have disjoint three-byte slots. -/
theorem slots_disjoint (w a b a2 b2 : Int) (hb0 : 0 ≤ b) (hb : b < w) (hc0 : 0 ≤ b2)
    (hc : b2 < w) (hne : a ≠ a2 ∨ b ≠ b2) :
    3 * (a2 * w + b2) + 3 ≤ 3 * (a * w + b) ∨ 3 * (a * w + b) + 3 ≤ 3 * (a2 * w + b2) := by
  rcases lt_trichotomy a a2 with hlt | heq | hgt
  · have h1 : (a + 1) * w ≤ a2 * w := Int.mul_le_mul_of_nonneg_right (by omega) (by omega)
    rw [show (a + 1) * w = a * w + w by ring] at h1
    right
    omega
  · subst heq
    omega
  · have h1 : (a2 + 1) * w ≤ a * w := Int.mul_le_mul_of_nonneg_right (by omega) (by omega)
    rw [show (a2 + 1) * w = a2 * w + w by ring] at h1
    left
    omega

/-- On a built image, a write at one in-bounds pixel leaves the read at every
other in-bounds pixel as it was, and both reads return. -/
theorem frame_built {r : Rectangle} {p : RGB} {x y x2 y2 : Int} {n : Nat} (c : ColorRGB)
    (hb : Built r p) (hr : r.isInt64) (hw : 0 < r.Dx) (hh : 0 < r.Dy)
    (hwh : 3 * r.Dx * r.Dy < 9223372036854775808) (hin : (Point.mk x y).In r)
    (hs : p.Pix.slice3 (p.PixOffset x y) = some n) (hin2 : (Point.mk x2 y2).In r)
    (hne : x2 ≠ x ∨ y2 ≠ y) :
    ∃ v, p.RGBAt x2 y2 = some v ∧
      ({ p with Pix := p.Pix.store3 n c } : RGB).RGBAt x2 y2 = some v := by
  obtain ⟨n1, hs1, -, e1, a1, a2, -, -, -⟩ := pixel_slot hb hr hw hh hwh hin
  rw [hs] at hs1
  cases hs1
  obtain ⟨m, hm, -, e2, c1, c2, -, -, hlen⟩ := pixel_slot hb hr hw hh hwh hin2
  have hdis := slots_disjoint r.Dx (y - r.Min.Y) (x - r.Min.X) (y2 - r.Min.Y) (x2 - r.Min.X)
    a1 a2 c1 c2 (by omega)
  have hdis2 : m + 3 ≤ n ∨ n + 3 ≤ m := by omega
  have hinp : (Point.mk x2 y2).In p.Rect := by rw [hb.rect]; exact hin2
  obtain ⟨v, hv⟩ := load3_some p.Pix m hlen
  have hm2 : (p.Pix.store3 n c).slice3 (p.PixOffset x2 y2) = some m := by
    unfold Slice.slice3 Slice.cap at hm ⊢
    rw [store3_length]
    exact hm
  refine ⟨v, ?_, ?_⟩
  · unfold RGB.RGBAt
    rw [if_neg (not_not.mpr hinp)]
    simp only [hm]
    exact hv
  · unfold RGB.RGBAt
    rw [if_neg (not_not.mpr hinp)]
    have hoff : ({ p with Pix := p.Pix.store3 n c } : RGB).PixOffset x2 y2 =
        p.PixOffset x2 y2 := rfl
    simp only [hoff, hm2]
    rw [load3_frame p.Pix n m c hdis2]
    exact hv

/-! ## The claims -/

/-- C1. Write-then-read round trip: on a representable rectangle `r` of positive
width and height whose byte size `3*Dx*Dy` does not overflow, for every image
reached from `NewRGB(r)` by `Set`/`SetRGB` calls, every point `(x, y)` inside
`r` and every `ColorRGB c`, `SetRGB(x, y, c)` returns, `RGBAt(x, y)` then
returns exactly `c`, and the bytes `c.R, c.G, c.B` are stored at
`Pix[(y-Rect.Min.Y)*Stride + (x-Rect.Min.X)*3 ..+3]`, inside the length of `Pix`. -/
theorem setRGB_then_RGBAt (r : Rectangle) (p : RGB) (x y : Int) (c : ColorRGB)
    (hr : r.isInt64) (hw : 0 < r.Dx) (hh : 0 < r.Dy)
    (hwh : 3 * r.Dx * r.Dy < 9223372036854775808) (hp : ReachedFrom r p)
    (hin : (Point.mk x y).In r) :
    ∃ q, p.SetRGB x y c = some q ∧ q.RGBAt x y = some c ∧
      ∃ n : Nat, (n : Int) = (y - q.Rect.Min.Y) * q.Stride + (x - q.Rect.Min.X) * 3 ∧
        n + 3 ≤ q.Pix.len ∧
        q.Pix.arr[n]? = some c.R ∧ q.Pix.arr[n + 1]? = some c.G ∧
        q.Pix.arr[n + 2]? = some c.B := by
  have hb : Built r p := built_of_reached (by omega) (by omega) hwh hp
  obtain ⟨n, -, hn, hlen, hset, hget⟩ := SetRGB_built c hb hr hw hh hwh hin
  obtain ⟨b0, b1, b2⟩ := store3_read p.Pix n c hlen
  refine ⟨_, hset, hget, n, hn, ?_, b0, b1, b2⟩
  show n + 3 ≤ p.Pix.len
  rw [hb.len, ← hb.cap]
  exact hlen

/-- A point inside a representable rectangle with non-negative machine
dimensions forces both dimensions to be positive. -/
theorem dims_pos {r : Rectangle} {x y : Int} (hr : r.isInt64) (hw : 0 ≤ r.Dx) (hh : 0 ≤ r.Dy)
    (hin : (Point.mk x y).In r) : 0 < r.Dx ∧ 0 < r.Dy := by
  obtain ⟨x0, x1, y0, y1⟩ := hin
  obtain ⟨r1, r2, r3, r4⟩ := hr
  dsimp only at x0 x1 y0 y1
  unfold Rectangle.Dx Rectangle.Dy sub64 wrap64 at *
  unfold isInt64 at *
  omega

/-- C2. For every rectangle with `w = Dx >= 0`, `h = Dy >= 0` and `3*w*h`
representable, `NewRGB` returns an image with `Rect = r`, `Stride` the machine
product `3*w` (the exact product whenever `3*w` is itself representable),
`Pix` of length (and capacity) exactly `3*w*h = Stride*h`, every byte zero, and
`RGBAt` returns `ColorRGB{0,0,0}` at every in-bounds coordinate. -/
theorem NewRGB_zeroed (r : Rectangle) (hw : 0 ≤ r.Dx) (hh : 0 ≤ r.Dy)
    (hwh : 3 * r.Dx * r.Dy < 9223372036854775808) :
    ∃ p, NewRGB r = some p ∧ p.Rect = r ∧ p.Stride = mul64 3 r.Dx ∧
      (3 * r.Dx < 9223372036854775808 → p.Stride = 3 * r.Dx) ∧
      (p.Pix.len : Int) = 3 * r.Dx * r.Dy ∧ (p.Pix.len : Int) = p.Stride * r.Dy ∧
      p.Pix.cap = p.Pix.len ∧ (∀ b ∈ p.Pix.arr, b = 0) ∧
      (r.isInt64 → ∀ x y : Int, (Point.mk x y).In r → p.RGBAt x y = some ⟨0, 0, 0⟩) := by
  have hprod : 0 ≤ 3 * r.Dx * r.Dy := Int.mul_nonneg (by omega) hh
  obtain ⟨-, s2, s3, -⟩ := size_arith r.Dx r.Dy hw hh hwh
  refine ⟨_, NewRGB_eq r hw hh hwh, rfl, rfl, s3, Int.toNat_of_nonneg hprod, ?_, ?_, ?_, ?_⟩
  · show (((3 * r.Dx * r.Dy).toNat : Nat) : Int) = mul64 3 r.Dx * r.Dy
    rw [Int.toNat_of_nonneg hprod, s2]
  · simp [Slice.cap]
  · intro b hb
    exact List.eq_of_mem_replicate hb
  · intro hr x y hin
    obtain ⟨hw1, hh1⟩ := dims_pos hr hw hh hin
    have hb : Built r ⟨⟨List.replicate (3 * r.Dx * r.Dy).toNat 0, (3 * r.Dx * r.Dy).toNat⟩,
        mul64 3 r.Dx, r⟩ := ⟨rfl, rfl, by simp, rfl⟩
    obtain ⟨n, hs, -, -, -, -, -, -, hlen⟩ := pixel_slot hb hr hw1 hh1 hwh hin
    unfold RGB.RGBAt
    rw [if_neg (not_not.mpr hin)]
    simp only [hs]
    exact load3_replicate _ _ n (by simpa using hlen)

/-- C3. For every image and every coordinate not inside `Rect`, `At` and `RGBAt`
return the zero colour `ColorRGB{0,0,0}` without panicking, and the same holds
for every other content of `Pix` (including an empty one): `Pix` is not read. -/
theorem At_outside (p : RGB) (x y : Int) (h : ¬ (Point.mk x y).In p.Rect) :
    p.RGBAt x y = some ⟨0, 0, 0⟩ ∧ p.At x y = some (.rgb ⟨0, 0, 0⟩) ∧
    ∀ pix : Slice, ({ p with Pix := pix } : RGB).RGBAt x y = some ⟨0, 0, 0⟩ ∧
      ({ p with Pix := pix } : RGB).At x y = some (.rgb ⟨0, 0, 0⟩) := by
  have key : ∀ q : RGB, q.Rect = p.Rect → q.RGBAt x y = some ⟨0, 0, 0⟩ := by
    intro q hq
    unfold RGB.RGBAt
    rw [hq, if_pos h]
  have keyAt : ∀ q : RGB, q.Rect = p.Rect → q.At x y = some (.rgb ⟨0, 0, 0⟩) := by
    intro q hq
    unfold RGB.At
    rw [key q hq]
    rfl
  exact ⟨key p rfl, keyAt p rfl, fun pix => ⟨key _ rfl, keyAt _ rfl⟩⟩

/-- C4. For every image, every coordinate not inside `Rect` and every colour,
`Set` and `SetRGB` return without panicking and leave the image (`Pix`,
`Stride` and `Rect`) exactly as it was. -/
theorem Set_outside (p : RGB) (x y : Int) (c : Color) (k : ColorRGB)
    (h : ¬ (Point.mk x y).In p.Rect) :
    p.Set x y c = some p ∧ p.SetRGB x y k = some p := by
  constructor
  · unfold RGB.Set
    rw [if_pos h]
  · unfold RGB.SetRGB
    rw [if_pos h]

/-- Dropping the low byte of a 16-bit value is division by 256. -/
theorem toByte_shift (n : Nat) (h : n ≤ 65535) : (toByte (n >>> 8)).val = n / 256 := by
  unfold toByte
  rw [Nat.shiftRight_eq_div_pow]
  show n / 256 % 256 = n / 256
  omega

/-- The channels of a `ColorRGB` are those of the opaque standard colour. -/
theorem RGBA_eq_stdRGBA (R G B : Byte) : (ColorRGB.mk R G B).RGBA = stdRGBA R G B 255 := rfl

/-- C5. For every colour `c` with `(r, g, b, a) = c.RGBA()`,
`RGBModel.Convert(c)` is `ColorRGB{uint8(r>>8), uint8(g>>8), uint8(b>>8)}`; on a
16-bit channel value this is the channel with its low byte dropped; two colours
with the same `r, g, b` convert to the same result whatever their `a`; and a
colour that is already a `ColorRGB` is returned unchanged (and obeys the formula). -/
theorem Convert_truncates (c : Color) :
    RGBModel.Convert c = .rgb ⟨toByte (c.RGBA.r.val >>> 8), toByte (c.RGBA.g.val >>> 8),
      toByte (c.RGBA.b.val >>> 8)⟩ ∧
    (c.RGBA.r.val ≤ 0xFFFF → (toByte (c.RGBA.r.val >>> 8)).val = c.RGBA.r.val / 256) ∧
    (c.RGBA.g.val ≤ 0xFFFF → (toByte (c.RGBA.g.val >>> 8)).val = c.RGBA.g.val / 256) ∧
    (c.RGBA.b.val ≤ 0xFFFF → (toByte (c.RGBA.b.val >>> 8)).val = c.RGBA.b.val / 256) ∧
    (∀ c2 : Color, c2.RGBA.r = c.RGBA.r → c2.RGBA.g = c.RGBA.g → c2.RGBA.b = c.RGBA.b →
      RGBModel.Convert c2 = RGBModel.Convert c) ∧
    (∀ k : ColorRGB, c = .rgb k → RGBModel.Convert c = .rgb k) := by
  refine ⟨rgbModel_formula c, toByte_shift _, toByte_shift _, toByte_shift _, ?_, ?_⟩
  · intro c2 hr hg hb
    show rgbModel c2 = rgbModel c
    rw [rgbModel_formula c2, rgbModel_formula c, hr, hg, hb]
  · intro k hk
    subst hk
    rfl

/-- C6. Lossless round trip of opaque colours: a colour whose `RGBA()` equals
that of the fully opaque standard colour `(R, G, B, 255)` converts to
`ColorRGB{R, G, B}`, whose `RGBA()` returns the same four channel values as the
original; and a colour with the channels `ColorRGB{R,G,B}.RGBA()` converts back
to `ColorRGB{R, G, B}`. -/
theorem opaque_round_trip (R G B : Byte) (c : Color) (h : c.RGBA = stdRGBA R G B 255) :
    RGBModel.Convert c = .rgb ⟨R, G, B⟩ ∧ (RGBModel.Convert c).RGBA = c.RGBA ∧
    (∀ c2 : Color, c2.RGBA = (ColorRGB.mk R G B).RGBA →
      RGBModel.Convert c2 = .rgb ⟨R, G, B⟩) := by
  have key : ∀ c2 : Color, c2.RGBA = (ColorRGB.mk R G B).RGBA →
      RGBModel.Convert c2 = .rgb ⟨R, G, B⟩ := by
    intro c2 h2
    show rgbModel c2 = _
    rw [rgbModel_formula c2, h2, ColorRGB.RGBA_r, ColorRGB.RGBA_g, ColorRGB.RGBA_b,
      toByte_rep16, toByte_rep16, toByte_rep16]
  have hc := key c (h.trans (RGBA_eq_stdRGBA R G B).symm)
  refine ⟨hc, ?_, key⟩
  rw [hc, h]
  rfl

/-- C7. For every `ColorRGB{R, G, B}`, `RGBA()` reports `a = 0xFFFF` and each
colour channel is the byte replicated into both bytes (`R*0x101`, `G*0x101`,
`B*0x101`), so every channel is at most `0xFFFF` and at most `a`; the result is
the one of the standard fully opaque 8-bit colour `(R, G, B, 255)`. -/
theorem RGBA_opaque (c : ColorRGB) :
    c.RGBA.a.val = 0xFFFF ∧
    c.RGBA.r.val = c.R.val * 0x101 ∧ c.RGBA.g.val = c.G.val * 0x101 ∧
    c.RGBA.b.val = c.B.val * 0x101 ∧
    c.RGBA.r.val ≤ 0xFFFF ∧ c.RGBA.g.val ≤ 0xFFFF ∧ c.RGBA.b.val ≤ 0xFFFF ∧
    c.RGBA.r ≤ c.RGBA.a ∧ c.RGBA.g ≤ c.RGBA.a ∧ c.RGBA.b ≤ c.RGBA.a ∧
    c.RGBA = stdRGBA c.R c.G c.B 255 := by
  have hr := c.RGBA_r
  have hg := c.RGBA_g
  have hb := c.RGBA_b
  have ha := c.RGBA_a
  have r1 := c.R.isLt
  have g1 := c.G.isLt
  have b1 := c.B.isLt
  refine ⟨ha, hr, hg, hb, by omega, by omega, by omega, ?_, ?_, ?_, rfl⟩
  · exact Fin.le_def.mpr (by omega)
  · exact Fin.le_def.mpr (by omega)
  · exact Fin.le_def.mpr (by omega)

/-- C8 (the code at the failing input). On the fresh one-pixel image
`NewRGB(image.Rect(0, 0, 1, 1))`, the colour returned by `At(0, 0)` reports
alpha `0xFFFF` in its `RGBA()` representation, not `0`; and every colour that
`At` returns, on any image at any coordinate, reports alpha `0xFFFF`. -/
theorem At_alpha_is_opaque :
    ((NewRGB (Rect 0 0 1 1)).bind fun p => (p.At 0 0).map fun c => c.RGBA.a.val) = some 65535 ∧
    ∀ (p : RGB) (x y : Int) (c : Color), p.At x y = some c → c.RGBA.a.val = 65535 := by
  refine ⟨by decide, ?_⟩
  intro p x y c h
  unfold RGB.At at h
  cases hk : p.RGBAt x y with
  | none => rw [hk] at h; cases h
  | some k =>
    rw [hk] at h
    cases h
    rfl

/-- C9. The generic setter and the fast setter agree on every image, coordinate
and colour: `Set(x, y, c)` has exactly the outcome of
`SetRGB(x, y, RGBModel.Convert(c))` (the conversion always yields a `ColorRGB`);
for `c` already a `ColorRGB` both setters give identical images; and for
in-bounds `(x, y)`, `Set` returns exactly when the slice expression is in range,
and `At(x, y)` on the image it leaves returns `RGBModel.Convert(c)`. -/
theorem Set_agrees_SetRGB (p : RGB) (x y : Int) (c : Color) :
    (∃ c1 : ColorRGB, RGBModel.Convert c = .rgb c1 ∧ p.Set x y c = p.SetRGB x y c1) ∧
    (∀ k : ColorRGB, p.Set x y (.rgb k) = p.SetRGB x y k) ∧
    ((Point.mk x y).In p.Rect →
      ((∃ q, p.Set x y c = some q) ↔ ∃ n, p.Pix.slice3 (p.PixOffset x y) = some n) ∧
      ∀ q, p.Set x y c = some q → q.At x y = some (RGBModel.Convert c)) := by
  obtain ⟨c1, ha, hc⟩ := convert_assertRGB c
  have hset := Set_eq_SetRGB p x y c ha
  refine ⟨⟨c1, hc, hset⟩, fun k => Set_eq_SetRGB p x y (.rgb k) rfl, ?_⟩
  intro hin
  rw [hset, hc]
  constructor
  · constructor
    · rintro ⟨q, hq⟩
      cases hs : p.Pix.slice3 (p.PixOffset x y) with
      | none =>
        unfold RGB.SetRGB at hq
        rw [if_neg (not_not.mpr hin)] at hq
        simp only [hs] at hq
        cases hq
      | some n => exact ⟨n, rfl⟩
    · rintro ⟨n, hn⟩
      exact ⟨_, (SetRGB_slot c1 hin hn).1⟩
  · intro q hq
    cases hs : p.Pix.slice3 (p.PixOffset x y) with
    | none =>
      unfold RGB.SetRGB at hq
      rw [if_neg (not_not.mpr hin)] at hq
      simp only [hs] at hq
      cases hq
    | some n =>
      obtain ⟨h1, h2⟩ := SetRGB_slot c1 hin hs
      rw [h1] at hq
      cases hq
      unfold RGB.At
      rw [h2]
      rfl

/-- C10. Setters mutate exactly one pixel and never the shape: on a representable
rectangle `r` with non-negative dimensions and representable byte size, for
every image reached from `NewRGB(r)`, every in-bounds `(x, y)` and all colours,
`Set` and `SetRGB` return, and the image either leaves has the `Stride`,
`Rect` and `len(Pix)` it had, with `len(Pix) = Stride*Dy` and `Stride = 3*Dx`,
and `RGBAt` returns at every other in-bounds coordinate the colour it returned
before. -/
theorem setters_frame (r : Rectangle) (p : RGB) (x y : Int) (c : Color) (k : ColorRGB)
    (hr : r.isInt64) (hw : 0 ≤ r.Dx) (hh : 0 ≤ r.Dy)
    (hwh : 3 * r.Dx * r.Dy < 9223372036854775808) (hp : ReachedFrom r p)
    (hin : (Point.mk x y).In r) :
    ∃ q1 q2, p.Set x y c = some q1 ∧ p.SetRGB x y k = some q2 ∧
      ∀ q, q = q1 ∨ q = q2 →
        q.Stride = p.Stride ∧ q.Rect = p.Rect ∧ q.Pix.len = p.Pix.len ∧
        (q.Pix.len : Int) = q.Stride * q.Rect.Dy ∧ q.Stride = 3 * q.Rect.Dx ∧
        ∀ x2 y2 : Int, (Point.mk x2 y2).In q.Rect → (x2 ≠ x ∨ y2 ≠ y) →
          ∃ v, p.RGBAt x2 y2 = some v ∧ q.RGBAt x2 y2 = some v := by
  have hb : Built r p := built_of_reached hw hh hwh hp
  obtain ⟨hw1, hh1⟩ := dims_pos hr hw hh hin
  obtain ⟨-, s2, -, s4⟩ := size_arith r.Dx r.Dy hw hh hwh
  have hprod : 0 ≤ 3 * r.Dx * r.Dy := Int.mul_nonneg (by omega) hh
  obtain ⟨n, hs, -, -, -, -, -, -, -⟩ := pixel_slot hb hr hw1 hh1 hwh hin
  have hinp : (Point.mk x y).In p.Rect := by rw [hb.rect]; exact hin
  obtain ⟨c1, ha, -⟩ := convert_assertRGB c
  have key : ∀ d : ColorRGB, ∀ q, q = ({ p with Pix := p.Pix.store3 n d } : RGB) →
      q.Stride = p.Stride ∧ q.Rect = p.Rect ∧ q.Pix.len = p.Pix.len ∧
      (q.Pix.len : Int) = q.Stride * q.Rect.Dy ∧ q.Stride = 3 * q.Rect.Dx ∧
      ∀ x2 y2 : Int, (Point.mk x2 y2).In q.Rect → (x2 ≠ x ∨ y2 ≠ y) →
        ∃ v, p.RGBAt x2 y2 = some v ∧ q.RGBAt x2 y2 = some v := by
    intro d q hq
    subst hq
    refine ⟨rfl, rfl, rfl, ?_, ?_, ?_⟩
    · show ((p.Pix.len : Nat) : Int) = p.Stride * p.Rect.Dy
      rw [hb.len, hb.stride, hb.rect, Int.toNat_of_nonneg hprod, s2]
    · show p.Stride = 3 * p.Rect.Dx
      rw [hb.stride, hb.rect]
      exact s4 hh1
    · intro x2 y2 hin2 hne
      have hin3 : (Point.mk x2 y2).In r := by rw [← hb.rect]; exact hin2
      exact frame_built d hb hr hw1 hh1 hwh hin hs hin3 hne
  refine ⟨{ p with Pix := p.Pix.store3 n c1 }, { p with Pix := p.Pix.store3 n k }, ?_,
    (SetRGB_slot k hinp hs).1, ?_⟩
  · rw [Set_eq_SetRGB p x y c ha]
    exact (SetRGB_slot c1 hinp hs).1
  · intro q hq
    rcases hq with h1 | h2
    · exact key c1 q h1
    · exact key k q h2

/-! ## Instances of the conditional theorems -/

/-- The round trip of C1 on the sample image, at pixel `(1, 1)`. -/
theorem setRGB_then_RGBAt_witness :
    (sampleRect.isInt64 ∧ 0 < sampleRect.Dx ∧ 0 < sampleRect.Dy ∧
      ReachedFrom sampleRect sampleImage ∧ (Point.mk 1 1).In sampleRect) ∧
    ∃ q, sampleImage.SetRGB 1 1 ⟨1, 2, 3⟩ = some q ∧ q.RGBAt 1 1 = some ⟨1, 2, 3⟩ ∧
      ∃ n : Nat, (n : Int) = (1 - q.Rect.Min.Y) * q.Stride + (1 - q.Rect.Min.X) * 3 ∧
        n + 3 ≤ q.Pix.len ∧
        q.Pix.arr[n]? = some 1 ∧ q.Pix.arr[n + 1]? = some 2 ∧ q.Pix.arr[n + 2]? = some 3 :=
  have hp : ReachedFrom sampleRect sampleImage :=
    ⟨⟨⟨List.replicate 12 0, 12⟩, 6, sampleRect⟩, [.setRGB 1 0 ⟨7, 8, 9⟩], by decide, by decide⟩
  ⟨⟨by decide, by decide, by decide, hp, by decide⟩,
    setRGB_then_RGBAt sampleRect sampleImage 1 1 ⟨1, 2, 3⟩ (by decide) (by decide) (by decide)
      (by decide) hp (by decide)⟩

/-- The fresh image of C2 for `image.Rect(0, 0, 2, 2)`. -/
theorem NewRGB_zeroed_witness :
    (0 ≤ sampleRect.Dx ∧ 0 ≤ sampleRect.Dy ∧
      3 * sampleRect.Dx * sampleRect.Dy < 9223372036854775808) ∧
    ∃ p, NewRGB sampleRect = some p ∧ p.Rect = sampleRect ∧ p.Stride = mul64 3 sampleRect.Dx ∧
      (3 * sampleRect.Dx < 9223372036854775808 → p.Stride = 3 * sampleRect.Dx) ∧
      (p.Pix.len : Int) = 3 * sampleRect.Dx * sampleRect.Dy ∧
      (p.Pix.len : Int) = p.Stride * sampleRect.Dy ∧
      p.Pix.cap = p.Pix.len ∧ (∀ b ∈ p.Pix.arr, b = 0) ∧
      (sampleRect.isInt64 → ∀ x y : Int, (Point.mk x y).In sampleRect →
        p.RGBAt x y = some ⟨0, 0, 0⟩) :=
  ⟨⟨by decide, by decide, by decide⟩,
    NewRGB_zeroed sampleRect (by decide) (by decide) (by decide)⟩

/-- The read of C3 outside the bounds of an image whose `Pix` is empty. -/
theorem At_outside_witness :
    ¬ (Point.mk 5 0).In emptyPixImage.Rect ∧
    emptyPixImage.RGBAt 5 0 = some ⟨0, 0, 0⟩ ∧ emptyPixImage.At 5 0 = some (.rgb ⟨0, 0, 0⟩) ∧
    ∀ pix : Slice, ({ emptyPixImage with Pix := pix } : RGB).RGBAt 5 0 = some ⟨0, 0, 0⟩ ∧
      ({ emptyPixImage with Pix := pix } : RGB).At 5 0 = some (.rgb ⟨0, 0, 0⟩) :=
  ⟨by decide, At_outside emptyPixImage 5 0 (by decide)⟩

/-- The writes of C4 outside the bounds of the sample image. -/
theorem Set_outside_witness :
    ¬ (Point.mk 2 0).In sampleImage.Rect ∧
    sampleImage.Set 2 0 sampleColor = some sampleImage ∧
    sampleImage.SetRGB 2 0 ⟨1, 2, 3⟩ = some sampleImage :=
  ⟨by decide, Set_outside sampleImage 2 0 sampleColor ⟨1, 2, 3⟩ (by decide)⟩

/-- The round trip of C6 for the opaque colour `(1, 2, 3, 255)`. -/
theorem opaque_round_trip_witness :
    (Color.other (stdRGBA 1 2 3 255)).RGBA = stdRGBA 1 2 3 255 ∧
    RGBModel.Convert (.other (stdRGBA 1 2 3 255)) = .rgb ⟨1, 2, 3⟩ ∧
    (RGBModel.Convert (.other (stdRGBA 1 2 3 255))).RGBA =
      (Color.other (stdRGBA 1 2 3 255)).RGBA ∧
    (∀ c2 : Color, c2.RGBA = (ColorRGB.mk 1 2 3).RGBA →
      RGBModel.Convert c2 = .rgb ⟨1, 2, 3⟩) :=
  ⟨rfl, opaque_round_trip 1 2 3 (.other (stdRGBA 1 2 3 255)) rfl⟩

/-- The frame property of C10 on the sample image, writing pixel `(1, 1)`. -/
theorem setters_frame_witness :
    (sampleRect.isInt64 ∧ 0 ≤ sampleRect.Dx ∧ 0 ≤ sampleRect.Dy ∧
      ReachedFrom sampleRect sampleImage ∧ (Point.mk 1 1).In sampleRect) ∧
    ∃ q1 q2, sampleImage.Set 1 1 sampleColor = some q1 ∧
      sampleImage.SetRGB 1 1 ⟨1, 2, 3⟩ = some q2 ∧
      ∀ q, q = q1 ∨ q = q2 →
        q.Stride = sampleImage.Stride ∧ q.Rect = sampleImage.Rect ∧
        q.Pix.len = sampleImage.Pix.len ∧
        (q.Pix.len : Int) = q.Stride * q.Rect.Dy ∧ q.Stride = 3 * q.Rect.Dx ∧
        ∀ x2 y2 : Int, (Point.mk x2 y2).In q.Rect → (x2 ≠ 1 ∨ y2 ≠ 1) →
          ∃ v, sampleImage.RGBAt x2 y2 = some v ∧ q.RGBAt x2 y2 = some v :=
  have hp : ReachedFrom sampleRect sampleImage :=
    ⟨⟨⟨List.replicate 12 0, 12⟩, 6, sampleRect⟩, [.setRGB 1 0 ⟨7, 8, 9⟩], by decide, by decide⟩
  ⟨⟨by decide, by decide, by decide, hp, by decide⟩,
    setters_frame sampleRect sampleImage 1 1 sampleColor ⟨1, 2, 3⟩ (by decide) (by decide)
      (by decide) (by decide) hp (by decide)⟩

/-! ## Failure of `NewRGB` -/

/-- The outcome of `NewRGB` is decided by the sign of the machine value `3*w*h`. -/
theorem NewRGB_cases (r : Rectangle) :
    (mul64 (mul64 3 r.Dx) r.Dy < 0 ∧ NewRGB r = none) ∨
    (0 ≤ mul64 (mul64 3 r.Dx) r.Dy ∧
      NewRGB r = some ⟨⟨List.replicate (mul64 (mul64 3 r.Dx) r.Dy).toNat 0,
        (mul64 (mul64 3 r.Dx) r.Dy).toNat⟩, mul64 3 r.Dx, r⟩) := by
  by_cases h : mul64 (mul64 3 r.Dx) r.Dy < 0
  · left
    refine ⟨h, ?_⟩
    unfold NewRGB makeBytes
    simp only [h, if_true]
  · right
    refine ⟨by omega, ?_⟩
    unfold NewRGB makeBytes
    simp only [h, if_false]

/-- The size computation for dimensions of opposite signs whose product is representable. -/
theorem size_arith_neg (w h : Int) (hs : (w < 0 ∧ 0 < h) ∨ (0 < w ∧ h < 0))
    (hwh : -9223372036854775808 ≤ 3 * w * h) : mul64 (mul64 3 w) h = 3 * w * h ∧ 3 * w * h < 0 := by
  rcases hs with ⟨hw, hh⟩ | ⟨hw, hh⟩
  · have h1 : 3 * w * h ≤ 3 * w * 1 := Int.mul_le_mul_of_nonpos_left (by omega) (by omega)
    have m1 : mul64 3 w = 3 * w := wrap64_of_isInt64 (by unfold isInt64; omega)
    rw [m1]
    exact ⟨wrap64_of_isInt64 (by unfold isInt64; omega), by omega⟩
  · have h1 : 3 * w * h ≤ 3 * w * (-1) := Int.mul_le_mul_of_nonneg_left (by omega) (by omega)
    have m1 : mul64 3 w = 3 * w := wrap64_of_isInt64 (by unfold isInt64; omega)
    rw [m1]
    exact ⟨wrap64_of_isInt64 (by unfold isInt64; omega), by omega⟩

/-- C11 (counterexample). For the rectangle `{Min: (1, 1), Max: (0, 0)}` both
`Dx` and `Dy` are negative, yet `NewRGB` returns an image: it allocates three
bytes and records the stride `-3`. -/
theorem NewRGB_negative_returns :
    invertedRect.Dx < 0 ∧ invertedRect.Dy < 0 ∧
    NewRGB invertedRect = some ⟨⟨[0, 0, 0], 3⟩, -3, invertedRect⟩ := by
  decide

/-- C11 (amended). `NewRGB` fails exactly when the machine value of `3*Dx*Dy`
is negative; this is the case whenever exactly one of `Dx`, `Dy` is negative,
the other is positive and the product is representable. Whenever `NewRGB`
returns, nothing is clamped: `Rect` is the given rectangle, `Stride` is the
machine product `3*Dx` and `len(Pix)` is the machine value of `3*Dx*Dy`. -/
theorem NewRGB_fails_iff (r : Rectangle) :
    (NewRGB r = none ↔ mul64 (mul64 3 r.Dx) r.Dy < 0) ∧
    (((r.Dx < 0 ∧ 0 < r.Dy) ∨ (0 < r.Dx ∧ r.Dy < 0)) →
      -9223372036854775808 ≤ 3 * r.Dx * r.Dy → NewRGB r = none) ∧
    (∀ p, NewRGB r = some p →
      p.Rect = r ∧ p.Stride = mul64 3 r.Dx ∧
      (p.Pix.len : Int) = mul64 (mul64 3 r.Dx) r.Dy ∧ p.Pix.cap = p.Pix.len) := by
  have hc := NewRGB_cases r
  refine ⟨?_, ?_, ?_⟩
  · constructor
    · intro hn
      rcases hc with ⟨h, -⟩ | ⟨-, h⟩
      · exact h
      · rw [hn] at h
        cases h
    · intro hlt
      rcases hc with ⟨-, h⟩ | ⟨h, -⟩
      · exact h
      · omega
  · intro hs hwh
    obtain ⟨e, hneg⟩ := size_arith_neg r.Dx r.Dy hs hwh
    rcases hc with ⟨-, h⟩ | ⟨h, -⟩
    · exact h
    · omega
  · intro p hp
    rcases hc with ⟨-, h⟩ | ⟨hpos, h⟩
    · rw [hp] at h
      cases h
    · rw [hp] at h
      cases h
      refine ⟨rfl, rfl, Int.toNat_of_nonneg hpos, ?_⟩
      simp [Slice.cap]

/-! ## The tolerance comparison -/

/-- The function `delta2` returns the absolute difference of its arguments. -/
theorem delta2_eq_abs (u0 u1 : U32) : delta2 u0 u1 = |(u0.val : Int) - (u1.val : Int)| := by
  have h0 := u0.isLt
  have h1 := u1.isLt
  unfold delta2
  have hs : sub64 (u0.val : Int) (u1.val : Int) = (u0.val : Int) - (u1.val : Int) :=
    wrap64_of_isInt64 (by unfold isInt64; omega)
  simp only [hs]
  split
  · next hneg =>
    rw [abs_of_neg hneg]
    exact wrap64_of_isInt64 (by unfold isInt64; omega)
  · next hpos =>
    rw [abs_of_nonneg (by omega)]

/-- C12. The comparison `withinTolerance` (built on `delta2`) is true exactly
when the absolute difference of each of the four channels that the two colours
report through `RGBA()` is at most the tolerance. Hence it is true on
`(c, c, t)` for every colour `c` and every `t >= 0`, it is symmetric in its two
colours, and it is false as soon as one channel differs by more than `t`. -/
theorem withinTolerance_spec (c0 c1 : Color) (t : Int) :
    (withinTolerance c0 c1 t = true ↔
      |(c0.RGBA.r.val : Int) - (c1.RGBA.r.val : Int)| ≤ t ∧
      |(c0.RGBA.g.val : Int) - (c1.RGBA.g.val : Int)| ≤ t ∧
      |(c0.RGBA.b.val : Int) - (c1.RGBA.b.val : Int)| ≤ t ∧
      |(c0.RGBA.a.val : Int) - (c1.RGBA.a.val : Int)| ≤ t) ∧
    (0 ≤ t → withinTolerance c0 c0 t = true) ∧
    withinTolerance c0 c1 t = withinTolerance c1 c0 t ∧
    ((t < |(c0.RGBA.r.val : Int) - (c1.RGBA.r.val : Int)| ∨
      t < |(c0.RGBA.g.val : Int) - (c1.RGBA.g.val : Int)| ∨
      t < |(c0.RGBA.b.val : Int) - (c1.RGBA.b.val : Int)| ∨
      t < |(c0.RGBA.a.val : Int) - (c1.RGBA.a.val : Int)|) →
      withinTolerance c0 c1 t = false) := by
  have key : ∀ d0 d1 : Color, (withinTolerance d0 d1 t = true ↔
      |(d0.RGBA.r.val : Int) - (d1.RGBA.r.val : Int)| ≤ t ∧
      |(d0.RGBA.g.val : Int) - (d1.RGBA.g.val : Int)| ≤ t ∧
      |(d0.RGBA.b.val : Int) - (d1.RGBA.b.val : Int)| ≤ t ∧
      |(d0.RGBA.a.val : Int) - (d1.RGBA.a.val : Int)| ≤ t) := by
    intro d0 d1
    unfold withinTolerance
    simp only [delta2_eq_abs, Bool.and_eq_true, decide_eq_true_eq]
    tauto
  refine ⟨key c0 c1, ?_, ?_, ?_⟩
  · intro ht
    rw [key c0 c0]
    simp only [sub_self, abs_zero]
    exact ⟨ht, ht, ht, ht⟩
  · rw [Bool.eq_iff_iff, key c0 c1, key c1 c0, abs_sub_comm (c0.RGBA.r.val : Int),
      abs_sub_comm (c0.RGBA.g.val : Int), abs_sub_comm (c0.RGBA.b.val : Int),
      abs_sub_comm (c0.RGBA.a.val : Int)]
  · intro hgt
    rw [← Bool.not_eq_true, key c0 c1]
    intro ⟨h1, h2, h3, h4⟩
    rcases hgt with h | h | h | h <;> omega

/-! ## Degenerate rectangles -/

/-- C15. Degenerate rectangles are valid: for every representable rectangle with
zero width or zero height (in particular those with `Max >= Min` on both axes;
the order on the other axis is not needed), `NewRGB` returns an image over that
rectangle whose `Pix` has length (and capacity) 0; no coordinate is inside it,
so `At` and `RGBAt` return `ColorRGB{0,0,0}` everywhere and `Set` and `SetRGB`
return the image unchanged. -/
theorem NewRGB_degenerate (r : Rectangle) (hr : r.isInt64) (hz : r.Dx = 0 ∨ r.Dy = 0) :
    ∃ p, NewRGB r = some p ∧ p.Rect = r ∧ p.Pix.len = 0 ∧ p.Pix.cap = 0 ∧
      ∀ x y : Int, ¬ (Point.mk x y).In p.Rect ∧
        p.RGBAt x y = some ⟨0, 0, 0⟩ ∧ p.At x y = some (.rgb ⟨0, 0, 0⟩) ∧
        ∀ (c : Color) (k : ColorRGB), p.Set x y c = some p ∧ p.SetRGB x y k = some p := by
  have hlen : mul64 (mul64 3 r.Dx) r.Dy = 0 := by
    rcases hz with h | h
    · rw [h]
      simp [mul64, wrap64]
    · rw [h]
      simp [mul64, wrap64]
  have hnew : NewRGB r = some ⟨⟨[], 0⟩, mul64 3 r.Dx, r⟩ := by
    rcases NewRGB_cases r with ⟨h, -⟩ | ⟨-, h⟩
    · omega
    · rw [h, hlen]
      rfl
  have hout : ∀ x y : Int, ¬ (Point.mk x y).In r := by
    intro x y hin
    obtain ⟨x0, x1, y0, y1⟩ := hin
    obtain ⟨r1, r2, r3, r4⟩ := hr
    dsimp only at x0 x1 y0 y1
    unfold Rectangle.Dx Rectangle.Dy sub64 wrap64 at hz
    unfold isInt64 at r1 r2 r3 r4
    omega
  refine ⟨_, hnew, rfl, rfl, rfl, ?_⟩
  intro x y
  have h := hout x y
  refine ⟨h, ?_, ?_, ?_⟩
  · unfold RGB.RGBAt
    rw [if_pos h]
  · unfold RGB.At RGB.RGBAt
    rw [if_pos h]
    rfl
  · intro c k
    constructor
    · unfold RGB.Set
      rw [if_pos h]
    · unfold RGB.SetRGB
      rw [if_pos h]

/-! ## Non-premultiplied colours -/

/-- The value of a colour channel of `color.NRGBA.RGBA()`. -/
theorem nrgbaChannel_val (x A : Byte) :
    (nrgbaChannel x A).val = x.val * 257 * A.val / 255 := by
  have hx := x.isLt
  have hA := A.isLt
  have hr := rep16_val x
  have hA2 : (toU32 A.val).val = A.val := Nat.mod_eq_of_lt (by omega)
  have hb : x.val * 257 * A.val ≤ 255 * 257 * 255 :=
    Nat.mul_le_mul (Nat.mul_le_mul (by omega) (le_refl _)) (by omega)
  have hdiv : x.val * 257 * A.val / 255 ≤ x.val * 257 * A.val := Nat.div_le_self _ _
  unfold nrgbaChannel
  simp only [hr, hA2]
  have h1 : (toU32 (x.val * 257 * A.val)).val = x.val * 257 * A.val :=
    Nat.mod_eq_of_lt (by omega)
  rw [h1]
  exact Nat.mod_eq_of_lt (by omega)

/-- C16 (counterexample). The half-transparent pure red `color.NRGBA{255, 0, 0, 128}`
converts to `ColorRGB{128, 0, 0}`, not to `ColorRGB{255, 0, 0}`, while the opaque
`color.NRGBA{255, 0, 0, 255}` converts to `ColorRGB{255, 0, 0}`: the result
depends on the alpha. -/
theorem Convert_NRGBA_depends_on_alpha :
    RGBModel.Convert (.other (stdNRGBA 255 0 0 128)) = .rgb ⟨128, 0, 0⟩ ∧
    RGBModel.Convert (.other (stdNRGBA 255 0 0 128)) ≠ .rgb ⟨255, 0, 0⟩ ∧
    RGBModel.Convert (.other (stdNRGBA 255 0 0 255)) = .rgb ⟨255, 0, 0⟩ := by
  decide

/-- C16 (amended). Converting a non-premultiplied colour `color.NRGBA{R, G, B, A}`
keeps no alpha and returns the high bytes of the alpha-premultiplied channels
that `RGBA()` reports, `ColorRGB{uint8((R*0x101*A/0xff)>>8), ...}`; this is
`ColorRGB{R, G, B}` when `A = 255` and `ColorRGB{0, 0, 0}` when `A = 0`. -/
theorem Convert_NRGBA (R G B A : Byte) :
    RGBModel.Convert (.other (stdNRGBA R G B A)) =
      .rgb ⟨toByte ((R.val * 0x101 * A.val / 0xff) >>> 8),
        toByte ((G.val * 0x101 * A.val / 0xff) >>> 8),
        toByte ((B.val * 0x101 * A.val / 0xff) >>> 8)⟩ ∧
    RGBModel.Convert (.other (stdNRGBA R G B 255)) = .rgb ⟨R, G, B⟩ ∧
    RGBModel.Convert (.other (stdNRGBA R G B 0)) = .rgb ⟨0, 0, 0⟩ := by
  have key : ∀ A2 : Byte, RGBModel.Convert (.other (stdNRGBA R G B A2)) =
      .rgb ⟨toByte ((R.val * 257 * A2.val / 255) >>> 8),
        toByte ((G.val * 257 * A2.val / 255) >>> 8),
        toByte ((B.val * 257 * A2.val / 255) >>> 8)⟩ := by
    intro A2
    show rgbModel _ = _
    rw [rgbModel_formula]
    show Color.rgb ⟨toByte ((nrgbaChannel R A2).val >>> 8), toByte ((nrgbaChannel G A2).val >>> 8),
      toByte ((nrgbaChannel B A2).val >>> 8)⟩ = _
    rw [nrgbaChannel_val, nrgbaChannel_val, nrgbaChannel_val]
  refine ⟨key A, ?_, ?_⟩
  · rw [key 255]
    show Color.rgb ⟨toByte ((R.val * 257 * 255 / 255) >>> 8),
      toByte ((G.val * 257 * 255 / 255) >>> 8), toByte ((B.val * 257 * 255 / 255) >>> 8)⟩ = _
    rw [Nat.mul_div_cancel _ (by decide : 0 < 255), Nat.mul_div_cancel _ (by decide : 0 < 255),
      Nat.mul_div_cancel _ (by decide : 0 < 255), toByte_rep16, toByte_rep16, toByte_rep16]
  · rw [key 0]
    show Color.rgb ⟨toByte ((R.val * 257 * 0 / 255) >>> 8),
      toByte ((G.val * 257 * 0 / 255) >>> 8), toByte ((B.val * 257 * 0 / 255) >>> 8)⟩ = _
    simp only [Nat.mul_zero, Nat.zero_div, Nat.zero_shiftRight]
    rfl

/-- C19. `RGBModel.Convert` is idempotent, and it returns every `ColorRGB`
unchanged. -/
theorem Convert_idempotent (c : Color) :
    RGBModel.Convert (RGBModel.Convert c) = RGBModel.Convert c ∧
    ∀ k : ColorRGB, RGBModel.Convert (.rgb k) = .rgb k := by
  refine ⟨?_, fun k => rfl⟩
  obtain ⟨c1, -, hc⟩ := convert_assertRGB c
  rw [hc]
  rfl

/-! ## Index safety and the size computation under overflow -/

/-- C17 (counterexample). For the rectangle spanning the whole range of `int` on
both axes, `Dx() = Dy() = -1`, so `3*Dx*Dy = 3` does not overflow and `NewRGB`
returns an image with three bytes; the point `(MinInt64+1, MinInt64)` is inside
`Rect`, `PixOffset` is `3` there, beyond the buffer, and `RGBAt`, `Set` and
`SetRGB` go out of range. -/
theorem index_out_of_range_full_span :
    fullRangeRect.isInt64 ∧ fullRangeRect.Dx = -1 ∧ fullRangeRect.Dy = -1 ∧
    isInt64 (3 * fullRangeRect.Dx * fullRangeRect.Dy) ∧
    ∃ p, NewRGB fullRangeRect = some p ∧ p.Pix.len = 3 ∧
      (Point.mk (-9223372036854775807) (-9223372036854775808)).In p.Rect ∧
      p.PixOffset (-9223372036854775807) (-9223372036854775808) = 3 ∧
      ¬ (p.PixOffset (-9223372036854775807) (-9223372036854775808) + 3 ≤ (p.Pix.len : Int)) ∧
      p.RGBAt (-9223372036854775807) (-9223372036854775808) = none ∧
      p.Set (-9223372036854775807) (-9223372036854775808) sampleColor = none ∧
      p.SetRGB (-9223372036854775807) (-9223372036854775808) ⟨1, 2, 3⟩ = none := by
  refine ⟨by decide, by decide, by decide, by decide,
    ⟨⟨[0, 0, 0], 3⟩, -3, fullRangeRect⟩, by decide, by decide, by decide, by decide, by decide,
    by decide, by decide, by decide⟩

/-- C17 (amended). Index safety when no step of the size computation overflows:
for every representable rectangle `r` whose differences `Max.X - Min.X` and
`Max.Y - Min.Y` and whose product `3*Dx*Dy` are representable (malformed
rectangles with `Max < Min` included: they contain no point), for every image
reached from `NewRGB(r)` by `Set`/`SetRGB` calls and every point `(x, y)` inside
`Rect`: `0 <= PixOffset(x, y)` and `PixOffset(x, y) + 3 <= len(Pix)`, and
`RGBAt`, `Set` and `SetRGB` return. -/
theorem index_safe (r : Rectangle) (p : RGB) (x y : Int) (hr : r.isInt64)
    (hdx : isInt64 (r.Max.X - r.Min.X)) (hdy : isInt64 (r.Max.Y - r.Min.Y))
    (hwh : isInt64 (3 * r.Dx * r.Dy)) (hp : ReachedFrom r p)
    (hin : (Point.mk x y).In p.Rect) :
    0 ≤ p.PixOffset x y ∧ p.PixOffset x y + 3 ≤ (p.Pix.len : Int) ∧
    (∃ v, p.RGBAt x y = some v) ∧
    ∀ (c : Color) (k : ColorRGB), (∃ q, p.Set x y c = some q) ∧ ∃ q, p.SetRGB x y k = some q := by
  obtain ⟨p0, ks, h0, hk⟩ := hp
  have hrect : p.Rect = r := by
    have h1 := (runCalls_sameShape hk).1
    rcases NewRGB_cases r with ⟨-, h⟩ | ⟨-, h⟩
    · rw [h0] at h
      cases h
    · rw [h0] at h
      cases h
      exact h1
  rw [hrect] at hin
  have hw : 0 < r.Dx ∧ 0 < r.Dy := by
    obtain ⟨x0, x1, y0, y1⟩ := hin
    dsimp only at x0 x1 y0 y1
    unfold Rectangle.Dx Rectangle.Dy sub64
    rw [wrap64_of_isInt64 hdx, wrap64_of_isInt64 hdy]
    omega
  have hwh2 : 3 * r.Dx * r.Dy < 9223372036854775808 := hwh.2
  have hb : Built r p := built_of_reached (by omega) (by omega) hwh2 ⟨p0, ks, h0, hk⟩
  obtain ⟨n, hs, -, -, -, -, -, -, hlen⟩ := pixel_slot hb hr hw.1 hw.2 hwh2 hin
  obtain ⟨hoff, -⟩ := slice3_some hs
  have hinp : (Point.mk x y).In p.Rect := by rw [hrect]; exact hin
  have hcl : p.Pix.len = p.Pix.arr.length := by rw [hb.len, hb.cap]
  refine ⟨by omega, by omega, ?_, ?_⟩
  · obtain ⟨v, hv⟩ := load3_some p.Pix n hlen
    refine ⟨v, ?_⟩
    unfold RGB.RGBAt
    rw [if_neg (not_not.mpr hinp)]
    simp only [hs]
    exact hv
  · intro c k
    obtain ⟨c1, ha, -⟩ := convert_assertRGB c
    refine ⟨⟨{ p with Pix := p.Pix.store3 n c1 }, ?_⟩, ⟨_, (SetRGB_slot k hinp hs).1⟩⟩
    rw [Set_eq_SetRGB p x y c ha]
    exact (SetRGB_slot c1 hinp hs).1

/-- C18 (counterexample). For `image.Rect(0, 0, 1<<32, 1<<32)` the
width and height are positive and the machine value of `3*w*h` wraps to `0`:
`NewRGB` returns an image whose `Pix` is empty, while the mathematical product
is `3 * 2^64`; the in-bounds pixel `(0, 0)` needs the bytes `0..3`, and `RGBAt`
goes out of range there. -/
theorem NewRGB_size_wraps :
    0 < squareRect32.Dx ∧ 0 < squareRect32.Dy ∧
    3 * squareRect32.Dx * squareRect32.Dy = 55340232221128654848 ∧
    NewRGB squareRect32 = some ⟨⟨[], 0⟩, 12884901888, squareRect32⟩ ∧
    (Point.mk 0 0).In squareRect32 ∧
    (⟨⟨[], 0⟩, 12884901888, squareRect32⟩ : RGB).PixOffset 0 0 = 0 ∧
    (⟨⟨[], 0⟩, 12884901888, squareRect32⟩ : RGB).RGBAt 0 0 = none := by
  decide

/-- C18 (amended). The size computation of `NewRGB` is exact when it does not
overflow: for every representable rectangle with positive width `w` and height
`h` and `3*w*h` representable, `NewRGB` returns and `len(Pix)` is the
mathematical product `3*w*h`; every in-bounds pixel ends inside the buffer, and
the pixel at the last in-bounds coordinate ends exactly at its end. -/
theorem NewRGB_size_exact (r : Rectangle) (hr : r.isInt64) (hw : 0 < r.Dx) (hh : 0 < r.Dy)
    (hwh : 3 * r.Dx * r.Dy < 9223372036854775808) :
    ∃ p, NewRGB r = some p ∧ (p.Pix.len : Int) = 3 * r.Dx * r.Dy ∧
      (∀ x y : Int, (Point.mk x y).In r →
        0 ≤ p.PixOffset x y ∧ p.PixOffset x y + 3 ≤ (p.Pix.len : Int)) ∧
      (r.Min.X < r.Max.X → r.Min.Y < r.Max.Y →
        (Point.mk (r.Max.X - 1) (r.Max.Y - 1)).In r ∧
        p.PixOffset (r.Max.X - 1) (r.Max.Y - 1) + 3 = (p.Pix.len : Int)) := by
  have hprod : 0 ≤ 3 * r.Dx * r.Dy := Int.mul_nonneg (by omega) (by omega)
  have hb : Built r ⟨⟨List.replicate (3 * r.Dx * r.Dy).toNat 0, (3 * r.Dx * r.Dy).toNat⟩,
      mul64 3 r.Dx, r⟩ := ⟨rfl, rfl, by simp, rfl⟩
  have hlen : (((3 * r.Dx * r.Dy).toNat : Nat) : Int) = 3 * r.Dx * r.Dy :=
    Int.toNat_of_nonneg hprod
  have hcap : (List.replicate (3 * r.Dx * r.Dy).toNat (0 : Byte)).length =
      (3 * r.Dx * r.Dy).toNat := by simp
  refine ⟨_, NewRGB_eq r (by omega) (by omega) hwh, hlen, ?_, ?_⟩
  · intro x y hin
    obtain ⟨n, hs, -, -, -, -, -, -, hn⟩ := pixel_slot hb hr hw hh hwh hin
    obtain ⟨hoff, -⟩ := slice3_some hs
    show 0 ≤ RGB.PixOffset _ x y ∧ RGB.PixOffset _ x y + 3 ≤ (((3 * r.Dx * r.Dy).toNat : Nat) : Int)
    rw [← hoff]
    have hn2 : n + 3 ≤ (3 * r.Dx * r.Dy).toNat := by
      rw [← hcap]
      exact hn
    omega
  · intro hx hy
    have hin : (Point.mk (r.Max.X - 1) (r.Max.Y - 1)).In r := by
      unfold Point.In
      dsimp only
      omega
    refine ⟨hin, ?_⟩
    obtain ⟨n, hs, -, e, -, -, -, -, -⟩ := pixel_slot hb hr hw hh hwh hin
    obtain ⟨hoff, -⟩ := slice3_some hs
    obtain ⟨r1, r2, r3, r4⟩ := hr
    obtain ⟨dx, -⟩ := sub64_in_range (x := r.Min.X) r1 r3 hw (le_refl _) hx
    obtain ⟨dy, -⟩ := sub64_in_range (x := r.Min.Y) r2 r4 hh (le_refl _) hy
    show RGB.PixOffset _ (r.Max.X - 1) (r.Max.Y - 1) + 3 = (((3 * r.Dx * r.Dy).toNat : Nat) : Int)
    rw [← hoff, e, hlen]
    have ex : r.Max.X - 1 - r.Min.X = r.Dx - 1 := by unfold Rectangle.Dx; omega
    have ey : r.Max.Y - 1 - r.Min.Y = r.Dy - 1 := by unfold Rectangle.Dy; omega
    rw [ex, ey]
    ring

/-! ## The manager registries -/

/-- Removing a fresh handle from a list of issued handles changes nothing. -/
theorem filter_fresh (l : List Nat) (id : Nat) (h : ∀ i ∈ l, i < id) :
    (id :: l).filter (fun i => i ≠ id) = l := by
  rw [List.filter_cons_of_neg (by simp)]
  exact List.filter_eq_self.mpr fun i hi => by
    have := h i hi
    simp only [ne_eq, decide_not, Bool.not_eq_true', decide_eq_false_iff_not]
    omega

/-- A call returns with both registries as it found them, on every exit path. -/
theorem runCall_restores (g : Registries) (c : Call) (h : g.WF) :
    (runCall g c).1.sources = g.sources ∧ (runCall g c).1.destinations = g.destinations ∧
    (runCall g c).1.WF := by
  obtain ⟨hs, hd⟩ := h
  unfold runCall
  by_cases hr : c.rejected = true
  · rw [if_pos hr]
    exact ⟨rfl, rfl, hs, hd⟩
  · rw [if_neg hr]
    cases hk : c.kind with
    | decode =>
      simp only [Registries.register, Registries.teardown]
      refine ⟨filter_fresh _ _ hs, trivial, ?_, ?_⟩
      · intro i hi
        rw [filter_fresh _ _ hs] at hi
        exact Nat.lt_succ_of_lt (hs i hi)
      · intro i hi
        exact Nat.lt_succ_of_lt (hd i hi)
    | encode =>
      simp only [Registries.register, Registries.teardown]
      refine ⟨trivial, filter_fresh _ _ hd, ?_, ?_⟩
      · intro i hi
        exact Nat.lt_succ_of_lt (hs i hi)
      · intro i hi
        rw [filter_fresh _ _ hd] at hi
        exact Nat.lt_succ_of_lt (hd i hi)

/-- A sequence of calls returns with both registries as it found them. -/
theorem runAll_restores (calls : List Call) : ∀ g : Registries, g.WF →
    (runAll g calls).sources = g.sources ∧ (runAll g calls).destinations = g.destinations := by
  induction calls with
  | nil =>
    intro g _
    exact ⟨rfl, rfl⟩
  | cons c cs ih =>
    intro g hg
    obtain ⟨h1, h2, h3⟩ := runCall_restores g c hg
    obtain ⟨i1, i2⟩ := ih (runCall g c).1 h3
    exact ⟨i1.trans h1, i2.trans h2⟩

/-- The entry of a call that is not rejected exists while the call streams. -/
theorem register_mem (g : Registries) (k : CallKind) :
    (k = .decode → (g.register k).1 ∈ (g.register k).2.sources) ∧
    (k = .encode → (g.register k).1 ∈ (g.register k).2.destinations) := by
  cases k <;> simp [Registries.register]

/-- C14. After any sequence of decode and encode calls, each of them successful,
failing during streaming (a failure of the stream, a fatal error of the codec,
an exhausted stream) or rejected at once, the source-manager registry and the
destination-manager registry are empty; every call, whatever its exit path,
returns with both registries as it found them, and the entry it registered is
present while it streams. -/
theorem registries_empty_after_calls (calls : List Call) :
    (runAll Registries.empty calls).SourceManagerMapLen = 0 ∧
    (runAll Registries.empty calls).DestinationManagerMapLen = 0 ∧
    (∀ (g : Registries) (c : Call), g.WF →
      (runCall g c).1.sources = g.sources ∧ (runCall g c).1.destinations = g.destinations) ∧
    (∀ (g : Registries) (k : CallKind),
      (k = .decode → (g.register k).1 ∈ (g.register k).2.sources) ∧
      (k = .encode → (g.register k).1 ∈ (g.register k).2.destinations)) := by
  have hwf : Registries.empty.WF := by
    constructor <;> intro i hi <;> cases hi
  obtain ⟨h1, h2⟩ := runAll_restores calls Registries.empty hwf
  refine ⟨?_, ?_, fun g c hg => ⟨(runCall_restores g c hg).1, (runCall_restores g c hg).2.1⟩,
    register_mem⟩
  · unfold Registries.SourceManagerMapLen
    rw [h1]
    rfl
  · unfold Registries.DestinationManagerMapLen
    rw [h2]
    rfl

/-! ## Instances of the conditional theorems, continued -/

/-- The degenerate rectangle `image.Rect(3, 4, 3, 9)` of C15. -/
theorem NewRGB_degenerate_witness :
    (zeroWidthRect.isInt64 ∧ (zeroWidthRect.Dx = 0 ∨ zeroWidthRect.Dy = 0)) ∧
    ∃ p, NewRGB zeroWidthRect = some p ∧ p.Rect = zeroWidthRect ∧ p.Pix.len = 0 ∧
      p.Pix.cap = 0 ∧
      ∀ x y : Int, ¬ (Point.mk x y).In p.Rect ∧
        p.RGBAt x y = some ⟨0, 0, 0⟩ ∧ p.At x y = some (.rgb ⟨0, 0, 0⟩) ∧
        ∀ (c : Color) (k : ColorRGB), p.Set x y c = some p ∧ p.SetRGB x y k = some p :=
  ⟨⟨by decide, by decide⟩, NewRGB_degenerate zeroWidthRect (by decide) (by decide)⟩

/-- The index safety of C17 on the sample image, at pixel `(1, 1)`. -/
theorem index_safe_witness :
    (sampleRect.isInt64 ∧ isInt64 (sampleRect.Max.X - sampleRect.Min.X) ∧
      isInt64 (sampleRect.Max.Y - sampleRect.Min.Y) ∧
      isInt64 (3 * sampleRect.Dx * sampleRect.Dy) ∧ ReachedFrom sampleRect sampleImage ∧
      (Point.mk 1 1).In sampleImage.Rect) ∧
    0 ≤ sampleImage.PixOffset 1 1 ∧
    sampleImage.PixOffset 1 1 + 3 ≤ (sampleImage.Pix.len : Int) ∧
    (∃ v, sampleImage.RGBAt 1 1 = some v) ∧
    ∀ (c : Color) (k : ColorRGB),
      (∃ q, sampleImage.Set 1 1 c = some q) ∧ ∃ q, sampleImage.SetRGB 1 1 k = some q :=
  have hp : ReachedFrom sampleRect sampleImage :=
    ⟨⟨⟨List.replicate 12 0, 12⟩, 6, sampleRect⟩, [.setRGB 1 0 ⟨7, 8, 9⟩], by decide, by decide⟩
  ⟨⟨by decide, by decide, by decide, by decide, hp, by decide⟩,
    index_safe sampleRect sampleImage 1 1 (by decide) (by decide) (by decide) (by decide) hp
      (by decide)⟩

/-- The exact size of C18 for `image.Rect(0, 0, 2, 2)`. -/
theorem NewRGB_size_exact_witness :
    (sampleRect.isInt64 ∧ 0 < sampleRect.Dx ∧ 0 < sampleRect.Dy ∧
      3 * sampleRect.Dx * sampleRect.Dy < 9223372036854775808) ∧
    ∃ p, NewRGB sampleRect = some p ∧ (p.Pix.len : Int) = 3 * sampleRect.Dx * sampleRect.Dy ∧
      (∀ x y : Int, (Point.mk x y).In sampleRect →
        0 ≤ p.PixOffset x y ∧ p.PixOffset x y + 3 ≤ (p.Pix.len : Int)) ∧
      (sampleRect.Min.X < sampleRect.Max.X → sampleRect.Min.Y < sampleRect.Max.Y →
        (Point.mk (sampleRect.Max.X - 1) (sampleRect.Max.Y - 1)).In sampleRect ∧
        p.PixOffset (sampleRect.Max.X - 1) (sampleRect.Max.Y - 1) + 3 = (p.Pix.len : Int)) :=
  ⟨⟨by decide, by decide, by decide, by decide⟩,
    NewRGB_size_exact sampleRect (by decide) (by decide) (by decide) (by decide)⟩

end GoLibjpeg
